import Mathlib

set_option linter.unusedVariables false

/-!
Shallow embedding of the numeric raster pipeline of the NASA-SPACE-NOCTIS-ORBIT
repository (src/App/src/lib/analysis.ts and src/App/src/lib/objectDetection.ts)
and proofs about the claims of its specification.

Modelling conventions:
- JavaScript double arithmetic is modelled over the rationals; Float32Array and
  Uint8ClampedArray buffers become lists.  Where non-finite samples matter
  (NaN, Infinity) the type JSNum below models a JavaScript number as either a
  finite rational or one of the three non-finite values.
- Stateful loops become structural recursions; the flood-fill worklist loops
  become fuel-indexed recursions whose fuel (buffer length plus one) dominates
  the number of loop iterations, since every queued index is marked visited
  when pushed and each iteration pops one index.
- The transcendental helpers Math.exp and Math.sqrt (used only by the frost
  speckle filter and the pca z-score) are abstracted as function parameters.
-/

namespace NoctisOrbit

/-- Clamp helper of objectDetection.ts: min(max, Math.max(min, value)) with the
default bounds 0 and 1 used at every call site. -/
def clamp (value : ℚ) : ℚ := min 1 (max 0 value)

/-- Insertion step of a stable sort: the element x is placed in front of the
first element y with le x y, keeping every earlier element before x. -/
def insertSorted {α : Type} (le : α → α → Bool) (x : α) : List α → List α
  | [] => [x]
  | y :: ys => if le x y then x :: y :: ys else y :: insertSorted le x ys

/-- Stable insertion sort modelling the stable Array.prototype.sort of
JavaScript for a comparator inducing the total preorder le. -/
def sortWith {α : Type} (le : α → α → Bool) : List α → List α
  | [] => []
  | x :: xs => insertSorted le x (sortWith le xs)

theorem insertSorted_decomp {α : Type} (le : α → α → Bool) (x : α) (s : List α) :
    ∃ s₁ s₂, s = s₁ ++ s₂ ∧ insertSorted le x s = s₁ ++ x :: s₂ ∧
      ∀ y ∈ s₁, le x y = false := by
  induction s with
  | nil => exact ⟨[], [], rfl, rfl, by simp⟩
  | cons y ys ih =>
    by_cases h : le x y
    · exact ⟨[], y :: ys, rfl, by simp [insertSorted, h], by simp⟩
    · obtain ⟨s₁, s₂, hs, hins, hle⟩ := ih
      refine ⟨y :: s₁, s₂, by simp [hs], ?_, ?_⟩
      · simp [insertSorted, h, hins]
      · intro z hz
        rcases List.mem_cons.mp hz with rfl | hz
        · simpa using h
        · exact hle z hz

theorem insertSorted_perm {α : Type} (le : α → α → Bool) (x : α) (s : List α) :
    List.Perm (insertSorted le x s) (x :: s) := by
  obtain ⟨s₁, s₂, hs, hins, -⟩ := insertSorted_decomp le x s
  rw [hins, hs]
  exact List.perm_middle

theorem sortWith_perm {α : Type} (le : α → α → Bool) (l : List α) :
    List.Perm (sortWith le l) l := by
  induction l with
  | nil => simp [sortWith]
  | cons x xs ih =>
    exact ((insertSorted_perm le x (sortWith le xs)).trans (ih.cons x))

theorem mem_sortWith {α : Type} (le : α → α → Bool) (l : List α) (a : α) :
    a ∈ sortWith le l ↔ a ∈ l := (sortWith_perm le l).mem_iff

theorem insertSorted_pairwise {α : Type} (le : α → α → Bool)
    (htot : ∀ a b, le a b = true ∨ le b a = true)
    (htrans : ∀ a b c, le a b = true → le b c = true → le a c = true)
    (x : α) (s : List α) (hs : s.Pairwise (fun a b => le a b = true)) :
    (insertSorted le x s).Pairwise (fun a b => le a b = true) := by
  induction s with
  | nil => simp [insertSorted]
  | cons y ys ih =>
    rcases List.pairwise_cons.mp hs with ⟨hy, hys⟩
    by_cases h : le x y
    · rw [insertSorted, if_pos h]
      refine List.pairwise_cons.mpr ⟨?_, hs⟩
      intro z hz
      rcases List.mem_cons.mp hz with rfl | hz
      · exact h
      · exact htrans x y z h (hy z hz)
    · rw [insertSorted, if_neg h]
      refine List.pairwise_cons.mpr ⟨?_, ih hys⟩
      intro z hz
      have hz' : z = x ∨ z ∈ ys := by
        have := (insertSorted_perm le x ys).mem_iff.mp hz
        simpa using this
      rcases hz' with rfl | hz'
      · rcases htot z y with h' | h'
        · exact absurd h' (by simpa using h)
        · exact h'
      · exact hy z hz'

theorem sortWith_pairwise {α : Type} (le : α → α → Bool)
    (htot : ∀ a b, le a b = true ∨ le b a = true)
    (htrans : ∀ a b c, le a b = true → le b c = true → le a c = true)
    (l : List α) :
    (sortWith le l).Pairwise (fun a b => le a b = true) := by
  induction l with
  | nil => simp [sortWith]
  | cons x xs ih => exact insertSorted_pairwise le htot htrans x (sortWith le xs) ih

theorem filter_insertSorted {α : Type} (le : α → α → Bool) (p : α → Bool)
    (x : α) (s : List α)
    (hp : ∀ y, le x y = false → p x = true → p y = false) :
    (insertSorted le x s).filter p =
      if p x then x :: s.filter p else s.filter p := by
  obtain ⟨s₁, s₂, hs, hins, hle⟩ := insertSorted_decomp le x s
  rw [hins, hs]
  by_cases hx : p x
  · have h₁ : s₁.filter p = [] := by
      refine List.filter_eq_nil_iff.mpr ?_
      intro y hy
      simp [hp y (hle y hy) hx]
    simp [List.filter_append, List.filter_cons, hx, h₁]
  · simp [List.filter_append, List.filter_cons, hx]

theorem sortWith_filter_stable {α : Type} (le : α → α → Bool) (p : α → Bool)
    (hp : ∀ x y, le x y = false → p x = true → p y = false) (l : List α) :
    (sortWith le l).filter p = l.filter p := by
  induction l with
  | nil => simp [sortWith]
  | cons x xs ih =>
    rw [sortWith, filter_insertSorted le p x (sortWith le xs) (fun y => hp x y),
      List.filter_cons, ih]

/-- Model of a JavaScript number: a finite rational or one of NaN and the two
infinities. -/
inductive JSNum : Type
  | fin (q : ℚ)
  | nan
  | posInf
  | negInf
  deriving DecidableEq, Repr

namespace JSNum

/-- Finite part of a JSNum, used to model the Number.isFinite filter. -/
def toFinite : JSNum → Option ℚ
  | fin q => some q
  | _ => none

/-- Number.isFinite of a JSNum. -/
def isFinite : JSNum → Bool
  | fin _ => true
  | _ => false

/-- Subtraction with IEEE-style non-finite propagation. -/
def jsub : JSNum → JSNum → JSNum
  | fin a, fin b => fin (a - b)
  | nan, _ => nan
  | _, nan => nan
  | posInf, posInf => nan
  | posInf, _ => posInf
  | negInf, negInf => nan
  | negInf, _ => negInf
  | fin _, posInf => negInf
  | fin _, negInf => posInf

/-- Absolute value with IEEE-style non-finite propagation. -/
def jabs : JSNum → JSNum
  | fin a => fin |a|
  | nan => nan
  | posInf => posInf
  | negInf => posInf

/-- Multiplication with IEEE-style non-finite propagation. -/
def jmul : JSNum → JSNum → JSNum
  | fin a, fin b => fin (a * b)
  | nan, _ => nan
  | _, nan => nan
  | posInf, posInf => posInf
  | posInf, negInf => negInf
  | negInf, posInf => negInf
  | negInf, negInf => posInf
  | posInf, fin b => if 0 < b then posInf else if b < 0 then negInf else nan
  | negInf, fin b => if 0 < b then negInf else if b < 0 then posInf else nan
  | fin a, posInf => if 0 < a then posInf else if a < 0 then negInf else nan
  | fin a, negInf => if 0 < a then negInf else if a < 0 then posInf else nan

/-- Division with IEEE-style non-finite propagation (the sign of zero is not
modelled; division by zero with a positive numerator yields posInf). -/
def jdiv : JSNum → JSNum → JSNum
  | fin a, fin b =>
      if b = 0 then (if a = 0 then nan else if 0 < a then posInf else negInf)
      else fin (a / b)
  | nan, _ => nan
  | _, nan => nan
  | posInf, fin b => if b < 0 then negInf else posInf
  | negInf, fin b => if b < 0 then posInf else negInf
  | fin _, posInf => fin 0
  | fin _, negInf => fin 0
  | posInf, _ => nan
  | negInf, _ => nan

end JSNum

/-- Exact percentile of analysis.ts and objectDetection.ts: filter the finite
samples, sort ascending, index round(p/100*(n-1)) clamped into range; an empty
finite population yields 0. -/
def percentile (values : List JSNum) (p : ℚ) : ℚ :=
  let arr := values.filterMap JSNum.toFinite
  if arr.length = 0 then 0
  else
    let sorted := sortWith (fun a b => decide (a ≤ b)) arr
    let idx : ℤ := min ((arr.length : ℤ) - 1)
      (max 0 (round (p / 100 * ((arr.length : ℚ) - 1))))
    sorted.getD idx.toNat 0

/-- Byte conversion step of normalizeToUint8: Math.round then clamp to
[0, 255] for a finite scaled value, 0 for a non-finite one. -/
def jsByte : JSNum → ℕ
  | JSNum.fin q => (min 255 (max 0 (round q))).toNat
  | _ => 0

/-- Percentile normalisation of analysis.ts (profile 2/98): clamp below the
2nd percentile to 0 and above the 98th to 255, linear in between; non-finite
inputs map to 0. -/
def normalizeToUint8 (values : List JSNum) : List ℕ :=
  let p2 := percentile values 2
  let p98 := percentile values 98
  let range := max (1 / 1000000) (p98 - p2)
  values.map fun x =>
    jsByte (JSNum.jmul (JSNum.jdiv (JSNum.jsub x (JSNum.fin p2)) (JSNum.fin range))
      (JSNum.fin 255))

/-- Elementwise absolute difference of analysis.ts; an index of b or a beyond
the end of the buffer reads as 0 (the nullish-coalescing fallback). -/
def absoluteDifference (a b : List JSNum) : List JSNum :=
  (List.range a.length).map fun i =>
    JSNum.jabs (JSNum.jsub (b.getD i (JSNum.fin 0)) (a.getD i (JSNum.fin 0)))

/-- Segmentation algorithm discriminant of ChangeDetectionOptions. -/
inductive Algorithm : Type
  | otsu
  | kmeans
  | adaptive
  | isolationForest
  | lof
  | pca
  deriving DecidableEq, Repr

/-- Speckle filter discriminant. -/
inductive SpeckleKind : Type
  | none
  | lee
  | kuan
  | frost
  deriving DecidableEq, Repr

/-- PostProcessOptions of analysis.ts. -/
structure PostProcessOptions : Type where
  openingRadius : ℕ
  closingRadius : ℕ
  fillHoles : Bool
  minBlobArea : ℕ

/-- ChangeDetectionOptions of analysis.ts; optional fields model the optional
TypeScript members. -/
structure ChangeDetectionOptions : Type where
  algorithm : Algorithm
  kmeansClusters : Option ℕ
  kmeansIterations : Option ℕ
  contamination : Option ℚ
  otsuManualThreshold : Option ℚ
  speckleFilter : Option SpeckleKind
  speckleSize : Option ℚ
  postProcess : PostProcessOptions

/-- Histogram of a byte buffer: occurrences of the intensity i. -/
def histOf (values : List ℕ) (i : ℕ) : ℕ := values.count i

/-- Between-class variance of the histogram of values at bin i exactly as the
otsuThreshold loop computes it (bins with an empty foreground or background
class contribute 0, matching the continue and break guards). -/
def binVariance (values : List ℕ) (i : ℕ) : ℚ :=
  let total : ℚ := values.length
  let sum : ℚ := ∑ j ∈ Finset.range 256, (j : ℚ) * (histOf values j : ℚ)
  let wB : ℚ := ∑ j ∈ Finset.range (i + 1), (histOf values j : ℚ)
  let sumB : ℚ := ∑ j ∈ Finset.range (i + 1), (j : ℚ) * (histOf values j : ℚ)
  if wB = 0 ∨ total - wB = 0 then 0
  else
    let mB := sumB / wB
    let mF := (sum - sumB) / (total - wB)
    wB * (total - wB) * (mB - mF) * (mB - mF)

/-- Main loop of otsuThreshold over the remaining bins, carrying the running
class sums, the maximal variance seen so far and the current threshold. -/
def otsuGo (hist : ℕ → ℚ) (total sum : ℚ) :
    List ℕ → ℚ → ℚ → ℚ → ℕ → ℕ
  | [], _, _, _, thr => thr
  | i :: rest, wB, sumB, varMax, thr =>
    let wB' := wB + hist i
    if wB' = 0 then otsuGo hist total sum rest wB' sumB varMax thr
    else if total - wB' = 0 then thr
    else
      let sumB' := sumB + (i : ℚ) * hist i
      let mB := sumB' / wB'
      let mF := (sum - sumB') / (total - wB')
      let v := wB' * (total - wB') * (mB - mF) * (mB - mF)
      if varMax < v then otsuGo hist total sum rest wB' sumB' v i
      else otsuGo hist total sum rest wB' sumB' varMax thr

/-- Otsu threshold of analysis.ts: histogram between-class variance
maximisation over the 256 bins with a strict-improvement update. -/
def otsuThreshold (values : List ℕ) : ℕ :=
  otsuGo (fun i => (histOf values i : ℚ)) (values.length : ℚ)
    (∑ j ∈ Finset.range 256, (j : ℚ) * (histOf values j : ℚ))
    (List.range 256) 0 0 0 0

/-- Argmin scan of kmeans1D label assignment: strict-improvement fold over the
centers, the running best distance starting at positive infinity (none). -/
def bestCenterGo (v : ℚ) : List ℚ → ℕ → Option ℚ → ℕ → ℕ
  | [], _, _, best => best
  | c :: rest, i, cur, best =>
    let dist := |v - c|
    let better := match cur with
      | Option.none => true
      | some d => decide (dist < d)
    if better then bestCenterGo v rest (i + 1) (some dist) i
    else bestCenterGo v rest (i + 1) cur best

/-- Label assignment pass of kmeans1D. -/
def assignLabels (values : List ℕ) (centers : List ℚ) : List ℕ :=
  values.map fun (v : ℕ) => bestCenterGo (v : ℚ) centers 0 Option.none 0

/-- Center recomputation pass of kmeans1D: each center becomes the mean of its
cluster, or keeps its value when the cluster is empty. -/
def recomputeCenters (values : List ℕ) (labels : List ℕ) (centers : List ℚ) :
    List ℚ :=
  (List.range centers.length).map fun c =>
    let cluster := (values.zip labels).filter fun p => decide (p.2 = c)
    if cluster.length = 0 then centers.getD c 0
    else (cluster.map fun p => (p.1 : ℚ)).sum / (cluster.length : ℚ)

/-- Iteration loop of kmeans1D; labels are reassigned before each center
update, and the returned labels are those of the final assignment. -/
def kmeansLoop (values : List ℕ) : ℕ → List ℚ → List ℕ → List ℚ × List ℕ
  | 0, centers, labels => (centers, labels)
  | n + 1, centers, labels =>
    let labels' := assignLabels values centers
    let centers' := recomputeCenters values labels' centers
    kmeansLoop values n centers' labels'

/-- One-dimensional k-means of analysis.ts with evenly spaced sampled initial
centers. -/
def kmeans1D (values : List ℕ) (clusters iterations : ℕ) : List ℚ × List ℕ :=
  let n := values.length
  let step := max 1 (n / clusters)
  let centers := (List.range clusters).map fun i =>
    ((values.getD (min (n - 1) (i * step)) 0 : ℚ))
  kmeansLoop values iterations centers (List.replicate n 0)

/-- Window offsets -radius..radius. -/
def offs (r : ℕ) : List ℤ := (List.range (2 * r + 1)).map fun (k : ℕ) => (k : ℤ) - r

/-- Coordinates inside the raster. -/
def inGridB (w h : ℕ) (x y : ℤ) : Bool :=
  decide (0 ≤ x ∧ x < (w : ℤ) ∧ 0 ≤ y ∧ y < (h : ℤ))

/-- In-bounds coordinates of the square window of the given radius around
(x, y); out-of-bounds taps are omitted, matching the edge policy. -/
def windowList (w h r : ℕ) (x y : ℤ) : List (ℤ × ℤ) :=
  (offs r).flatMap fun dy =>
    (offs r).filterMap fun dx =>
      let xx := x + dx
      let yy := y + dy
      if 0 ≤ xx ∧ xx < (w : ℤ) ∧ 0 ≤ yy ∧ yy < (h : ℤ) then some (xx, yy)
      else Option.none

/-- Local box average of analysis.ts over a clamped square window. -/
def localAverage (values : List ℕ) (w h radius : ℕ) : List ℚ :=
  (List.range values.length).map fun i =>
    if i < w * h then
      let x : ℤ := ((i % w : ℕ) : ℤ)
      let y : ℤ := ((i / w : ℕ) : ℤ)
      let win := windowList w h radius x y
      if win.length = 0 then (values.getD i 0 : ℚ)
      else ((win.map fun p => (values.getD (p.2.toNat * w + p.1.toNat) 0 : ℚ)).sum) /
        (win.length : ℚ)
    else 0

/-- Rank index shared by the isolation_forest and pca branches:
round(n*(1-contamination)) clamped into the array. -/
def contaminationIndex (n : ℕ) (contamination : ℚ) : ℕ :=
  (max 0 (min ((n : ℤ) - 1) (round ((n : ℚ) * (1 - contamination))))).toNat

/-- Segmentation of analysis.ts (computeMask): six-algorithm thresholding of
the normalized 0..255 difference raster into a binary mask.  The sqrt used by
the pca branch is abstracted as the sqrtQ parameter. -/
def computeMask (diff : List ℕ) (w h : ℕ) (sqrtQ : ℚ → ℚ)
    (options : ChangeDetectionOptions) : List Bool :=
  let contamination := min (1 / 2) (max (1 / 2000) (options.contamination.getD (1 / 100)))
  match options.algorithm with
  | Algorithm.otsu =>
    let threshold : ℤ :=
      match options.otsuManualThreshold with
      | some manual => round (manual * 255)
      | Option.none => (otsuThreshold diff : ℤ)
    diff.map fun (v : ℕ) => decide ((v : ℤ) > threshold)
  | Algorithm.adaptive =>
    let locAvg := localAverage diff w h 3
    (List.range diff.length).map fun i =>
      decide ((diff.getD i 0 : ℚ) > locAvg.getD i 0 + 8)
  | Algorithm.kmeans =>
    let clusters := max 2 (options.kmeansClusters.getD 2)
    let iterations := max 1 (options.kmeansIterations.getD 6)
    let out := kmeans1D diff clusters iterations
    let centers := out.1
    let labels := out.2
    let sorted := sortWith (fun a b => decide (a.1 ≤ b.1))
      ((List.range centers.length).map fun i => (centers.getD i 0, i))
    let changeCluster := (sorted.getLastD (0, 0)).2
    labels.map fun l => decide (l = changeCluster)
  | Algorithm.isolationForest =>
    let sorted := sortWith (fun a b => decide (a ≤ b)) diff
    let threshold := sorted.getD (contaminationIndex diff.length contamination) 0
    diff.map fun v => decide (v ≥ threshold)
  | Algorithm.lof =>
    let locAvg := localAverage diff w h 2
    (List.range diff.length).map fun i =>
      decide ((diff.getD i 0 : ℚ) - locAvg.getD i 0 > 12)
  | Algorithm.pca =>
    let n := diff.length
    let mean := (diff.map fun (v : ℕ) => (v : ℚ)).sum / (n : ℚ)
    let variance := (diff.map fun (v : ℕ) => ((v : ℚ) - mean) * ((v : ℚ) - mean)).sum / (n : ℚ)
    let std := max (sqrtQ variance) (1 / 1000000)
    let scores := diff.map fun (v : ℕ) => |((v : ℚ) - mean) / std|
    let sorted := sortWith (fun a b => decide (a ≤ b)) scores
    let threshold := sorted.getD (contaminationIndex n contamination) 0
    scores.map fun s => decide (s ≥ threshold)

/-- Mask sample at integer coordinates; false outside the raster. -/
def pixAt (m : List Bool) (w h : ℕ) (x y : ℤ) : Bool :=
  if 0 ≤ x ∧ x < (w : ℤ) ∧ 0 ≤ y ∧ y < (h : ℤ) then
    m.getD (y.toNat * w + x.toNat) false
  else false

/-- Dilation of analysis.ts: a pixel is set when some in-bounds neighbour
within the Chebyshev radius is set; radius 0 returns a copy. -/
def dilate (m : List Bool) (w h r : ℕ) : List Bool :=
  if r = 0 then m
  else
    (List.range (w * h)).map fun i =>
      let x : ℤ := ((i % w : ℕ) : ℤ)
      let y : ℤ := ((i / w : ℕ) : ℤ)
      (offs r).any fun dy => (offs r).any fun dx => pixAt m w h (x + dx) (y + dy)

/-- Erosion of analysis.ts: a pixel stays set only when every in-bounds
neighbour within the Chebyshev radius is set; radius 0 returns a copy. -/
def erode (m : List Bool) (w h r : ℕ) : List Bool :=
  if r = 0 then m
  else
    (List.range (w * h)).map fun i =>
      let x : ℤ := ((i % w : ℕ) : ℤ)
      let y : ℤ := ((i / w : ℕ) : ℤ)
      (offs r).all fun dy => (offs r).all fun dx =>
        !inGridB w h (x + dx) (y + dy) || pixAt m w h (x + dx) (y + dy)

/-- Four flat neighbours idx-1, idx+1, idx-w, idx+w restricted to the buffer
and to a Manhattan distance of one (the wrap-around guard of analysis.ts). -/
def neigh4 (len w : ℕ) (idx : ℕ) : List ℕ :=
  let x : ℤ := ((idx % w : ℕ) : ℤ)
  let y : ℤ := ((idx / w : ℕ) : ℤ)
  [(idx : ℤ) - 1, (idx : ℤ) + 1, (idx : ℤ) - (w : ℤ), (idx : ℤ) + (w : ℤ)].filterMap
    fun n =>
      if 0 ≤ n ∧ n < (len : ℤ) then
        let nx : ℤ := ((n.toNat % w : ℕ) : ℤ)
        let ny : ℤ := ((n.toNat / w : ℕ) : ℤ)
        if |nx - x| + |ny - y| > 1 then Option.none else some n.toNat
      else Option.none

/-- Depth-first component collection of removeSmallComponents; the fuel bounds
the number of worklist iterations (each pop consumes one previously pushed
index and an index is pushed at most once since it is marked visited). -/
def floodCollect (mask : List Bool) (len w : ℕ) :
    ℕ → List ℕ → List Bool → List ℕ → List Bool × List ℕ
  | 0, _, visited, comp => (visited, comp)
  | fuel + 1, stack, visited, comp =>
    match stack with
    | [] => (visited, comp)
    | idx :: rest =>
      let comp' := comp ++ [idx]
      let next := (neigh4 len w idx).foldl
        (fun (s : List ℕ × List Bool) n =>
          if mask.getD n false && !(s.2.getD n false) then (n :: s.1, s.2.set n true)
          else s)
        (rest, visited)
      floodCollect mask len w fuel next.1 next.2 comp'

/-- Outer scan of removeSmallComponents over the buffer indices. -/
def rscGo (mask : List Bool) (w minArea : ℕ) :
    List ℕ → List Bool → List Bool → List Bool
  | [], _, out => out
  | i :: rest, visited, out =>
    if mask.getD i false && !(visited.getD i false) then
      let flooded := floodCollect mask mask.length w (mask.length + 1) [i]
        (visited.set i true) []
      let comp := flooded.2
      let out' := if comp.length < minArea then
          comp.foldl (fun m idx => m.set idx false) out
        else out
      rscGo mask w minArea rest flooded.1 out'
    else rscGo mask w minArea rest visited out

/-- removeSmallComponents of analysis.ts: 4-connected components smaller than
minArea are cleared; no-op when minArea is at most 1. -/
def removeSmallComponents (mask : List Bool) (w h minArea : ℕ) : List Bool :=
  if minArea ≤ 1 then mask
  else rscGo mask w minArea (List.range mask.length)
    (List.replicate mask.length false) mask

/-- pushIfBackground of fillHoles: queue an in-bounds unvisited background
pixel and mark it visited. -/
def pushIfBackground (mask : List Bool) (s : List ℕ × List Bool) (idx : ℕ) :
    List ℕ × List Bool :=
  if idx < mask.length ∧ ¬(mask.getD idx false) ∧ ¬(s.2.getD idx false) then
    (idx :: s.1, s.2.set idx true)
  else s

/-- Border seed indices of fillHoles in queue order. -/
def fillHolesSeeds (w h : ℕ) : List ℕ :=
  ((List.range w).flatMap fun x => [x, (h - 1) * w + x]) ++
    ((List.range h).flatMap fun y => [y * w, y * w + (w - 1)])

/-- Background flood of fillHoles from the border seeds. -/
def fillFlood (mask : List Bool) (len w : ℕ) :
    ℕ → List ℕ → List Bool → List Bool
  | 0, _, visited => visited
  | fuel + 1, stack, visited =>
    match stack with
    | [] => visited
    | idx :: rest =>
      let next := (neigh4 len w idx).foldl (fun s n => pushIfBackground mask s n)
        (rest, visited)
      fillFlood mask len w fuel next.1 next.2

/-- fillHoles of analysis.ts: any background pixel not reached from the border
is interior and becomes set. -/
def fillHoles (mask : List Bool) (w h : ℕ) : List Bool :=
  let init := (fillHolesSeeds w h).foldl (fun s idx => pushIfBackground mask s idx)
    ([], List.replicate mask.length false)
  let visited := fillFlood mask mask.length w (mask.length + 1) init.1 init.2
  (List.range mask.length).map fun i =>
    if ¬(mask.getD i false) ∧ ¬(visited.getD i false) then true
    else mask.getD i false

/-- postProcessMask of analysis.ts: opening, closing, hole filling and small
component removal, each conditional on its parameter. -/
def postProcessMask (mask : List Bool) (w h : ℕ) (options : PostProcessOptions) :
    List Bool :=
  let out₁ := if options.openingRadius > 0 then
      dilate (erode mask w h options.openingRadius) w h options.openingRadius
    else mask
  let out₂ := if options.closingRadius > 0 then
      erode (dilate out₁ w h options.closingRadius) w h options.closingRadius
    else out₁
  let out₃ := if options.fillHoles then fillHoles out₂ w h else out₂
  if options.minBlobArea > 1 then removeSmallComponents out₃ w h options.minBlobArea
  else out₃

/-- applySpeckleFilter of analysis.ts over finite samples; Math.exp of the
frost branch is abstracted as the expQ parameter. -/
def applySpeckleFilter (expQ : ℚ → ℚ) (values : List ℚ) (w h : ℕ)
    (filter : SpeckleKind) (size : ℚ) : List ℚ :=
  if filter = SpeckleKind.none ∨ size ≤ 1 then values
  else
    let rN : ℕ := (max 1 ⌊size / 2⌋).toNat
    let stats : ℕ → ℚ × ℚ := fun i =>
      if i < w * h then
        let x : ℤ := ((i % w : ℕ) : ℤ)
        let y : ℤ := ((i / w : ℕ) : ℤ)
        let win := windowList w h rN x y
        if win.length = 0 then (values.getD i 0, 0)
        else
          let vals := win.map fun p => values.getD (p.2.toNat * w + p.1.toNat) 0
          let mean := vals.sum / (win.length : ℚ)
          let sumSq := (vals.map fun v => v * v).sum
          (mean, max 0 (sumSq / (win.length : ℚ) - mean * mean))
      else (0, 0)
    let overallMean := values.sum / (values.length : ℚ)
    let overallVar :=
      (values.map fun v => (v - overallMean) * (v - overallMean)).sum /
        (values.length : ℚ)
    (List.range values.length).map fun i =>
      let value := values.getD i 0
      let mean := (stats i).1
      let variance := (stats i).2
      match filter with
      | SpeckleKind.lee =>
          mean + (variance / (variance + overallVar + 1 / 1000000)) * (value - mean)
      | SpeckleKind.kuan =>
          let ci2 := variance / max (mean * mean) (1 / 1000000)
          let sigmaS2 : ℚ := 1 / 4
          let wgt := max 0 (min 1 (1 - sigmaS2 / max ci2 (1 / 1000000)))
          mean + wgt * (value - mean)
      | SpeckleKind.frost =>
          let damping : ℚ := 2
          let coeff := expQ (-damping * variance / max overallVar (1 / 1000000))
          coeff * mean + (1 - coeff) * value
      | SpeckleKind.none => value

/-- Nearest-neighbour resampling of analysis.ts. -/
def resampleFloat32Nearest (data : List ℚ) (srcW srcH dstW dstH : ℕ) : List ℚ :=
  if srcW = dstW ∧ srcH = dstH then data
  else
    let xRatio : ℚ := (srcW : ℚ) / (dstW : ℚ)
    let yRatio : ℚ := (srcH : ℚ) / (dstH : ℚ)
    (List.range (dstW * dstH)).map fun i =>
      let x := i % dstW
      let y := i / dstW
      let srcY : ℤ := min ((srcH : ℤ) - 1) (round (((y : ℚ) + 1 / 2) * yRatio - 1 / 2))
      let srcX : ℤ := min ((srcW : ℤ) - 1) (round (((x : ℚ) + 1 / 2) * xRatio - 1 / 2))
      data.getD (srcY.toNat * srcW + srcX.toNat) 0

/-- Numeric core of an analyzeChange result. -/
structure ChangeCoreResult : Type where
  mask : List Bool
  diff : List ℕ
  changedPixels : ℕ
  changePercentage : ℚ

/-- Numeric core of analyzeChange of analysis.ts: alignment, speckle
filtering, absolute difference, normalization, segmentation, morphological
post-processing and the change statistics.  File decoding and preview
rendering are outside the numeric core. -/
def analyzeChangeCore (expQ sqrtQ : ℚ → ℚ)
    (beforeData : List ℚ) (beforeWidth beforeHeight : ℕ)
    (afterData : List ℚ) (afterWidth afterHeight : ℕ)
    (options : ChangeDetectionOptions) : ChangeCoreResult :=
  let width := afterWidth
  let height := afterHeight
  let alignedBefore :=
    if beforeWidth = width ∧ beforeHeight = height then beforeData
    else resampleFloat32Nearest beforeData beforeWidth beforeHeight width height
  let alignedAfter := afterData
  let sf := options.speckleFilter.getD SpeckleKind.none
  let ss := options.speckleSize.getD 3
  let filteredBefore := applySpeckleFilter expQ alignedBefore width height sf ss
  let filteredAfter := applySpeckleFilter expQ alignedAfter width height sf ss
  let diff := absoluteDifference (filteredBefore.map JSNum.fin)
    (filteredAfter.map JSNum.fin)
  let diffDisplay := normalizeToUint8 diff
  let rawMask := computeMask diffDisplay width height sqrtQ options
  let processedMask := postProcessMask rawMask width height options.postProcess
  let changedPixels := processedMask.countP id
  let changePercentage := ((changedPixels : ℚ) / ((width : ℚ) * (height : ℚ))) * 100
  ⟨processedMask, diffDisplay, changedPixels, changePercentage⟩

/-- Axis-aligned bounding box of objectDetection.ts. -/
structure BoundingBox : Type where
  x : ℚ
  y : ℚ
  width : ℚ
  height : ℚ
  deriving DecidableEq, Repr

/-- Urban feature categories of objectDetection.ts. -/
inductive UrbanFeatureCategory : Type
  | building
  | borderWall
  | bridge
  | river
  | urbanFeature
  deriving DecidableEq, Repr

/-- CATEGORY_LABELS of objectDetection.ts. -/
def categoryLabel : UrbanFeatureCategory → String
  | UrbanFeatureCategory.building => "Building"
  | UrbanFeatureCategory.borderWall => "Border Wall"
  | UrbanFeatureCategory.bridge => "Bridge"
  | UrbanFeatureCategory.river => "River"
  | UrbanFeatureCategory.urbanFeature => "Urban Feature"

/-- DetectionBox of objectDetection.ts (preview and footprint fields carry the
values the numeric core assigns). -/
structure DetectionBox : Type where
  id : String
  label : String
  categoryId : UrbanFeatureCategory
  confidence : ℚ
  bbox : BoundingBox
  previewBox : BoundingBox
  areaPixels : ℕ
  centroid : ℚ × ℚ
  centroidPreview : ℚ × ℚ
  footprint : Option (List (ℚ × ℚ))
  notes : String
  deriving DecidableEq, Repr

/-- ObjectDetectionOptions of objectDetection.ts. -/
structure ObjectDetectionOptions : Type where
  thresholdPercentile : ℚ
  minAreaPixels : ℕ
  maxDetections : Option ℕ
  deriving DecidableEq, Repr

/-- Intersection-over-union of two boxes, exactly as objectDetection.ts
computes it. -/
def iou (a b : BoundingBox) : ℚ :=
  let x0 := max a.x b.x
  let y0 := max a.y b.y
  let x1 := min (a.x + a.width) (b.x + b.width)
  let y1 := min (a.y + a.height) (b.y + b.height)
  let w := max 0 (x1 - x0)
  let hh := max 0 (y1 - y0)
  let inter := w * hh
  let union := a.width * a.height + b.width * b.height - inter
  if union > 0 then inter / union else 0

/-- Greedy keep loop of nonMaximumSuppression. -/
def nmsGo (threshold : ℚ) : List DetectionBox → List DetectionBox → List DetectionBox
  | [], keep => keep
  | b :: rest, keep =>
    if keep.any fun k => decide (iou b.bbox k.bbox ≥ threshold) then
      nmsGo threshold rest keep
    else nmsGo threshold rest (keep ++ [b])

/-- Comparator of nonMaximumSuppression: descending confidence (the stable
JavaScript sort keeps ties in input order). -/
def confDesc (a b : DetectionBox) : Bool := decide (b.confidence ≤ a.confidence)

/-- nonMaximumSuppression of objectDetection.ts. -/
def nonMaximumSuppression (boxes : List DetectionBox) (threshold : ℚ) :
    List DetectionBox :=
  nmsGo threshold (sortWith confDesc boxes) []

/-- Percentile of a byte buffer (all samples finite). -/
def percentileB (values : List ℕ) (p : ℚ) : ℚ :=
  percentile (values.map fun (v : ℕ) => JSNum.fin (v : ℚ)) p

/-- Percentile normalisation of objectDetection.ts (profile 2/99.5). -/
def normalize (values : List JSNum) : List ℕ :=
  let p2 := percentile values 2
  let p99 := percentile values (995 / 10)
  let range := max (1 / 1000000) (p99 - p2)
  values.map fun x =>
    jsByte (JSNum.jmul (JSNum.jdiv (JSNum.jsub x (JSNum.fin p2)) (JSNum.fin range))
      (JSNum.fin 255))

/-- Nearest-neighbour resampling of a byte raster (objectDetection.ts). -/
def resampleNearest (data : List ℕ) (srcW srcH dstW dstH : ℕ) : List ℕ :=
  (List.range (dstW * dstH)).map fun i =>
    let x := i % dstW
    let y := i / dstW
    let srcY : ℤ := min ((srcH : ℤ) - 1)
      (round (((y : ℚ) + 1 / 2) * ((srcH : ℚ) / (dstH : ℚ)) - 1 / 2))
    let srcX : ℤ := min ((srcW : ℤ) - 1)
      (round (((x : ℚ) + 1 / 2) * ((srcW : ℚ) / (dstW : ℚ)) - 1 / 2))
    data.getD (srcY.toNat * srcW + srcX.toNat) 0

/-- createBinaryMask of objectDetection.ts. -/
def createBinaryMask (data : List ℕ) (threshold : ℚ) : List Bool :=
  data.map fun (v : ℕ) => decide ((v : ℚ) ≥ threshold)

/-- Single 3x3 dilate or erode pass of applyMorphology. -/
def morphOp (source : List Bool) (w h : ℕ) (isDilate : Bool) : List Bool :=
  (List.range (w * h)).map fun i =>
    let x : ℤ := ((i % w : ℕ) : ℤ)
    let y : ℤ := ((i / w : ℕ) : ℤ)
    if isDilate then
      (offs 1).any fun dy => (offs 1).any fun dx => pixAt source w h (x + dx) (y + dy)
    else
      (offs 1).all fun dy => (offs 1).all fun dx =>
        !inGridB w h (x + dx) (y + dy) || pixAt source w h (x + dx) (y + dy)

/-- applyMorphology of objectDetection.ts: one 3x3 close (dilate then erode). -/
def applyMorphology (mask : List Bool) (w h : ℕ) : List Bool :=
  morphOp (morphOp mask w h true) w h false

/-- Neighbour push of floodFillComponents: flat-index neighbours guarded only
against the buffer bounds (objectDetection.ts performs no row-wrap check
here). -/
def push8 (mask : List Bool) (s : List ℕ × List Bool) (n : ℤ) :
    List ℕ × List Bool :=
  if 0 ≤ n ∧ n < (mask.length : ℤ) then
    let i := n.toNat
    if mask.getD i false && !(s.2.getD i false) then (i :: s.1, s.2.set i true)
    else s
  else s

/-- Worklist loop of one component of floodFillComponents. -/
def componentFlood (mask : List Bool) (w : ℕ) :
    ℕ → List ℕ → List Bool → List ℕ → List Bool × List ℕ
  | 0, _, visited, comp => (visited, comp)
  | fuel + 1, stack, visited, comp =>
    match stack with
    | [] => (visited, comp)
    | idx :: rest =>
      let comp' := comp ++ [idx]
      let nbrs : List ℤ :=
        [(idx : ℤ) - 1, (idx : ℤ) + 1, (idx : ℤ) - (w : ℤ), (idx : ℤ) + (w : ℤ),
          (idx : ℤ) - (w : ℤ) - 1, (idx : ℤ) - (w : ℤ) + 1,
          (idx : ℤ) + (w : ℤ) - 1, (idx : ℤ) + (w : ℤ) + 1]
      let next := nbrs.foldl (fun s n => push8 mask s n) (rest, visited)
      componentFlood mask w fuel next.1 next.2 comp'

/-- Outer scan of floodFillComponents. -/
def ffcGo (mask : List Bool) (w : ℕ) :
    List ℕ → List Bool → List (List ℕ) → List (List ℕ)
  | [], _, comps => comps
  | i :: rest, visited, comps =>
    if mask.getD i false && !(visited.getD i false) then
      let flooded := componentFlood mask w (mask.length + 1) [i] (visited.set i true) []
      ffcGo mask w rest flooded.1 (comps ++ [flooded.2])
    else ffcGo mask w rest visited comps

/-- floodFillComponents of objectDetection.ts. -/
def floodFillComponents (mask : List Bool) (w h : ℕ) : List (List ℕ) :=
  ffcGo mask w (List.range mask.length) (List.replicate mask.length false) []

/-- Rectangle prefix sums computed by computeIntegralImage: the value at
(x, y) is the sum of the raster over columns below x and rows below y, which
is what the row-accumulation loop stores at index y*(width+1)+x. -/
def computeIntegralImage (values : List ℕ) (w h : ℕ) : ℕ → ℕ → ℕ :=
  fun x y => ∑ j ∈ Finset.range y, ∑ i ∈ Finset.range x, values.getD (j * w + i) 0

/-- localMean of objectDetection.ts over the integral image. -/
def localMean (ii : ℕ → ℕ → ℕ) (x0 y0 x1 y1 : ℕ) : ℚ :=
  ((ii x1 y1 : ℚ) - (ii x1 y0 : ℚ) - (ii x0 y1 : ℚ) + (ii x0 y0 : ℚ)) /
    (((x1 - x0) * (y1 - y0) : ℕ) : ℚ)

/-- adaptiveBinaryMask of objectDetection.ts: threshold against the windowed
mean minus an offset. -/
def adaptiveBinaryMask (values : List ℕ) (w h window offset : ℕ) : List Bool :=
  let ii := computeIntegralImage values w h
  (List.range values.length).map fun i =>
    if i < w * h then
      let x := i % w
      let y := i / w
      let y0 := y - window / 2
      let y1 := min h (y0 + window)
      let x0 := x - window / 2
      let x1 := min w (x0 + window)
      let mean := localMean ii x0 y0 x1 y1
      decide ((values.getD i 0 : ℚ) ≥ max 0 (mean - (offset : ℚ)))
    else false

/-- Deletion test of zhangSuenThin at one interior pixel: set pixel,
neighbour count in 2..6, a single 0-to-1 transition around the ring, and the
two corner-preserving tests (the source uses the same two tests in both
sub-iterations); some index when the pixel is to be removed. -/
def zsCheck (img : List Bool) (w : ℕ) (x y : ℕ) : Option ℕ :=
  if !(img.getD (y * w + x) false) then Option.none
  else
    let coords : List (ℤ × ℤ) :=
      [(-1, -1), (0, -1), (1, -1), (1, 0), (1, 1), (0, 1), (-1, 1), (-1, 0)]
    let vals : List ℕ := coords.map fun c =>
      if img.getD ((((y : ℤ) + c.2).toNat) * w + ((x : ℤ) + c.1).toNat) false
      then 1 else 0
    let neighbors := vals.sum
    if neighbors < 2 ∨ neighbors > 6 then Option.none
    else
      let transitions := (List.range 8).countP fun k =>
        decide (vals.getD k 0 = 0 ∧ vals.getD ((k + 1) % 8) 0 = 1)
      if transitions ≠ 1 then Option.none
      else if vals.getD 1 0 ≠ 0 ∧ vals.getD 3 0 ≠ 0 ∧ vals.getD 5 0 ≠ 0 then
        Option.none
      else if vals.getD 3 0 ≠ 0 ∧ vals.getD 5 0 ≠ 0 ∧ vals.getD 7 0 ≠ 0 then
        Option.none
      else some (y * w + x)

/-- One scan of zhangSuenThin collecting the removable pixels, in row-major
order over the interior of the raster. -/
def zsPass (img : List Bool) (w h : ℕ) : List ℕ :=
  (List.range (h - 2)).flatMap fun y' =>
    (List.range (w - 2)).filterMap fun x' => zsCheck img w (x' + 1) (y' + 1)

/-- Clearing of the collected pixels at the end of a sub-iteration. -/
def clearAll (img : List Bool) (idxs : List ℕ) : List Bool :=
  idxs.foldl (fun m i => m.set i false) img

/-- One round of the zhangSuenThin outer while loop: two collect-and-clear
sub-iterations and the changing flag. -/
def zhangSuenRound (img : List Bool) (w h : ℕ) : List Bool × Bool :=
  let tr1 := zsPass img w h
  let img1 := clearAll img tr1
  let tr2 := zsPass img1 w h
  let img2 := clearAll img1 tr2
  (img2, !tr1.isEmpty || !tr2.isEmpty)

/-- Fuel-indexed iteration of zhangSuenRound; a round that reports a change
removed at least one set pixel, so the initial set-pixel count plus one
dominates the number of rounds. -/
def zhangSuenGo (w h : ℕ) : ℕ → List Bool → List Bool
  | 0, img => img
  | fuel + 1, img =>
    let r := zhangSuenRound img w h
    if r.2 then zhangSuenGo w h fuel r.1 else r.1

/-- zhangSuenThin of objectDetection.ts. -/
def zhangSuenThin (mask : List Bool) (w h : ℕ) : List Bool :=
  zhangSuenGo w h (mask.countP id + 1) mask

/-- skeletonLength of objectDetection.ts: count of component indices that are
set in the skeleton mask (an out-of-range index reads as unset). -/
def skeletonLength (component : List ℤ) (w : ℕ) (mask : List Bool) : ℕ :=
  component.countP fun idx => decide (0 ≤ idx) && mask.getD idx.toNat false

/-- Classification metrics of objectDetection.ts. -/
structure ClassificationMetrics : Type where
  areaPixels : ℕ
  boundingArea : ℕ
  fillRatio : ℚ
  aspectRatio : ℚ
  majorAxis : ℚ
  minorAxis : ℚ

/-- Result of classifyUrbanFeature. -/
structure Classification : Type where
  categoryId : UrbanFeatureCategory
  notes : String
  shapeScore : ℚ

/-- classifyUrbanFeature of objectDetection.ts: four gated candidate scores,
stable descending sort, highest candidate or the urban-feature fallback. -/
def classifyUrbanFeature (metrics : ClassificationMetrics) : Classification :=
  let area : ℚ := (metrics.areaPixels : ℚ)
  let fillRatio := metrics.fillRatio
  let aspectRatio := metrics.aspectRatio
  let majorAxis := metrics.majorAxis
  let minorAxis := metrics.minorAxis
  let buildingSize := clamp ((area - 1200) / 7000)
  let buildingDensity := clamp ((fillRatio - 22 / 100) / (4 / 10))
  let buildingAspect := clamp (1 - |aspectRatio - 16 / 10| / 3)
  let buildingScore := clamp (buildingSize * (4 / 10) + buildingDensity * (4 / 10) +
    buildingAspect * (2 / 10))
  let c1 : List (UrbanFeatureCategory × ℚ × String) :=
    if buildingScore > 1 / 4 ∧ area ≥ 1000 then
      [(UrbanFeatureCategory.building, 55 / 100 + 45 / 100 * buildingScore,
        "Dense rectangular scatter consistent with building footprint")]
    else []
  let bridgeElongation := clamp ((aspectRatio - 35 / 10) / (65 / 10))
  let bridgeSpan := clamp ((majorAxis - 40) / 140)
  let bridgeWidth := clamp (1 - |minorAxis - 18| / 28)
  let bridgeDensity := clamp ((fillRatio - 2 / 10) / (45 / 100))
  let bridgeScore := clamp (bridgeElongation * (35 / 100) + bridgeSpan * (1 / 4) +
    bridgeDensity * (1 / 4) + bridgeWidth * (15 / 100))
  let c2 : List (UrbanFeatureCategory × ℚ × String) :=
    if bridgeScore > 1 / 4 ∧ majorAxis ≥ 40 ∧ minorAxis ≤ 80 then
      [(UrbanFeatureCategory.bridge, 5 / 10 + 5 / 10 * bridgeScore,
        "Linear span with strong return suggests bridge or elevated crossing")]
    else []
  let wallElongation := clamp ((aspectRatio - 6) / 8)
  let wallSlenderness := clamp (1 - (minorAxis - 3) / 22)
  let wallDiffusion := clamp ((35 / 100 - fillRatio) / (35 / 100))
  let wallScore := clamp (wallElongation * (45 / 100) + wallSlenderness * (35 / 100) +
    wallDiffusion * (2 / 10))
  let c3 : List (UrbanFeatureCategory × ℚ × String) :=
    if wallScore > 2 / 10 ∧ majorAxis ≥ 35 then
      [(UrbanFeatureCategory.borderWall, 5 / 10 + 5 / 10 * wallScore,
        "Long, narrow scatter consistent with defensive wall or perimeter")]
    else []
  let riverArea := clamp (area / 20000)
  let riverDiffuse := clamp ((3 / 10 - fillRatio) / (3 / 10))
  let riverElongation := clamp ((aspectRatio - 2) / 8)
  let riverWidth := clamp ((minorAxis - 6) / 40)
  let riverScore := clamp (riverArea * (35 / 100) + riverDiffuse * (35 / 100) +
    riverElongation * (2 / 10) + riverWidth * (1 / 10))
  let c4 : List (UrbanFeatureCategory × ℚ × String) :=
    if riverScore > 2 / 10 ∧ area ≥ 900 then
      [(UrbanFeatureCategory.river, 5 / 10 + 5 / 10 * riverScore,
        "Broad, diffuse return likely from river or drainage channel")]
    else []
  match sortWith (fun a b => decide (b.2.1 ≤ a.2.1)) (c1 ++ c2 ++ c3 ++ c4) with
  | best :: _ => ⟨best.1, best.2.2, clamp best.2.1⟩
  | [] =>
    let fallbackScore := clamp (clamp (area / 6000) * (1 / 2) +
      clamp (fillRatio / (45 / 100)) * (1 / 2))
    ⟨UrbanFeatureCategory.urbanFeature,
      "Irregular scatter requires analyst confirmation",
      35 / 100 + 4 / 10 * fallbackScore⟩

/-- Bounding extremes (minX, minY, maxX, maxY) of a component, accumulated
exactly as the forEach of buildDetectionBoxes does starting from
(width, height, 0, 0). -/
def componentBounds (pixels : List ℕ) (w h : ℕ) : ℕ × ℕ × ℕ × ℕ :=
  pixels.foldl
    (fun (b : ℕ × ℕ × ℕ × ℕ) idx =>
      let y := idx / w
      let x := idx % w
      (min b.1 x, min b.2.1 y, max b.2.2.1 x, max b.2.2.2 y))
    (w, h, 0, 0)

/-- Local component mask copied out of the global mask over the bounding box
(the compMask buffer of buildDetectionBoxes). -/
def componentMask (mask : List Bool) (w minX minY bw bh : ℕ) : List Bool :=
  (List.range (bw * bh)).map fun j =>
    let px := j % bw
    let py := j / bw
    mask.getD ((minY + py) * w + (minX + px)) false

/-- Linearity override of buildDetectionBoxes: the category forced on a
sufficiently linear and long component, none otherwise. -/
def forcedCategory (linearity aspectRatio major : ℚ) : Option UrbanFeatureCategory :=
  if linearity > 1 / 4 ∧ major ≥ 20 then
    some (if aspectRatio > 3 ∨ major > 50 then UrbanFeatureCategory.bridge
      else UrbanFeatureCategory.borderWall)
  else Option.none

/-- Shape score after the linearity boost of buildDetectionBoxes. -/
def adjustedShapeScore (shapeScore linearity aspectRatio major : ℚ) : ℚ :=
  if linearity > 1 / 4 ∧ major ≥ 20 then
    if aspectRatio > 3 ∨ major > 50 then
      clamp (max shapeScore (6 / 10 + linearity * (4 / 10)))
    else clamp (max shapeScore (55 / 100 + linearity * (35 / 100)))
  else shapeScore

/-- Linearity ratio of a component as buildDetectionBoxes computes it: the
skeleton count of the thinned local mask over the component indices remapped
by subtracting the flat offset bbox.y*width+bbox.x, divided by the component
size. -/
def componentLinearity (mask : List Bool) (w minX minY bw bh : ℕ)
    (pixels : List ℕ) : ℚ :=
  let skel := zhangSuenThin (componentMask mask w minX minY bw bh) bw bh
  let sklen := skeletonLength
    (pixels.map fun idx => (idx : ℤ) - (minY : ℤ) * (w : ℤ) - (minX : ℤ)) bw skel
  clamp ((sklen : ℚ) / ((max 1 pixels.length : ℕ) : ℚ))

/-- Major bounding-box axis of a component (max of the bbox sides). -/
def componentMajor (pixels : List ℕ) (w h : ℕ) : ℕ :=
  let b := componentBounds pixels w h
  max (b.2.2.1 - b.1 + 1) (b.2.2.2 - b.2.1 + 1)

/-- Minor bounding-box axis of a component, floored at 1. -/
def componentMinor (pixels : List ℕ) (w h : ℕ) : ℕ :=
  let b := componentBounds pixels w h
  max 1 (min (b.2.2.1 - b.1 + 1) (b.2.2.2 - b.2.1 + 1))

/-- Aspect ratio major/minor of a component. -/
def componentAspect (pixels : List ℕ) (w h : ℕ) : ℚ :=
  (componentMajor pixels w h : ℚ) / (componentMinor pixels w h : ℚ)

/-- Linearity ratio of a component over its own bounding box, as
buildDetectionBoxes computes it. -/
def componentLinearityOf (mask : List Bool) (pixels : List ℕ) (w h : ℕ) : ℚ :=
  let b := componentBounds pixels w h
  componentLinearity mask w b.1 b.2.1 (b.2.2.1 - b.1 + 1) (b.2.2.2 - b.2.1 + 1) pixels

/-- Detection box built from one connected component by buildDetectionBoxes
(n is the number of boxes already accepted, used for the id); none when the
component or its bounding box is below the minimum area. -/
def buildOneBox (mask : List Bool) (data : List ℕ) (w h : ℕ)
    (options : ObjectDetectionOptions) (thresholdValue : ℚ) (n : ℕ)
    (pixels : List ℕ) : Option DetectionBox :=
  if pixels.length < options.minAreaPixels then Option.none
  else
    let b := componentBounds pixels w h
    let minX := b.1
    let minY := b.2.1
    let maxX := b.2.2.1
    let maxY := b.2.2.2
    let bw := maxX - minX + 1
    let bh := maxY - minY + 1
    let area := bw * bh
    if area < options.minAreaPixels then Option.none
    else
      let sum : ℚ := (pixels.map fun idx => (data.getD idx 0 : ℚ)).sum
      let averageIntensity := sum / (pixels.length : ℚ)
      let baseConfidence :=
        clamp ((averageIntensity - thresholdValue) / max 1 (255 - thresholdValue))
      let centroidX := (pixels.map fun idx => ((idx % w : ℕ) : ℚ)).sum / (pixels.length : ℚ)
      let centroidY := (pixels.map fun idx => ((idx / w : ℕ) : ℚ)).sum / (pixels.length : ℚ)
      let fillRatio := (pixels.length : ℚ) / ((max 1 area : ℕ) : ℚ)
      let major : ℕ := componentMajor pixels w h
      let minor : ℕ := componentMinor pixels w h
      let aspectRatio := componentAspect pixels w h
      let classification := classifyUrbanFeature
        ⟨pixels.length, area, fillRatio, aspectRatio, (major : ℚ), (minor : ℚ)⟩
      let linearity := componentLinearityOf mask pixels w h
      let forced := forcedCategory linearity aspectRatio (major : ℚ)
      let adjusted := adjustedShapeScore classification.shapeScore linearity
        aspectRatio (major : ℚ)
      let confidence := clamp (baseConfidence * (1 / 2) + adjusted * (1 / 2))
      some
        { id := "det-" ++ toString (n + 1)
          label := categoryLabel (forced.getD classification.categoryId)
          categoryId := forced.getD classification.categoryId
          confidence := confidence
          bbox := ⟨(minX : ℚ), (minY : ℚ), (bw : ℚ), (bh : ℚ)⟩
          previewBox := ⟨0, 0, 0, 0⟩
          areaPixels := pixels.length
          centroid := (centroidX, centroidY)
          centroidPreview := (0, 0)
          footprint := Option.none
          notes := classification.notes }

/-- Truthiness of options.maxDetections (undefined and 0 are falsy). -/
def maxDetTruthy : Option ℕ → Bool
  | some m => decide (m ≠ 0)
  | Option.none => false

/-- Component loop of buildDetectionBoxes with the early break once the
accepted box count reaches maxDetections. -/
def buildBoxesGo (mask : List Bool) (data : List ℕ) (w h : ℕ)
    (options : ObjectDetectionOptions) (thresholdValue : ℚ) :
    List (List ℕ) → List DetectionBox → List DetectionBox
  | [], boxes => boxes
  | pixels :: rest, boxes =>
    match buildOneBox mask data w h options thresholdValue boxes.length pixels with
    | Option.none => buildBoxesGo mask data w h options thresholdValue rest boxes
    | some box =>
      let boxes' := boxes ++ [box]
      if maxDetTruthy options.maxDetections &&
          decide (boxes'.length ≥ options.maxDetections.getD 0) then boxes'
      else buildBoxesGo mask data w h options thresholdValue rest boxes'

/-- buildDetectionBoxes of objectDetection.ts. -/
def buildDetectionBoxes (components : List (List ℕ)) (mask : List Bool)
    (data : List ℕ) (w h : ℕ) (options : ObjectDetectionOptions) :
    List DetectionBox :=
  buildBoxesGo mask data w h options (percentileB data options.thresholdPercentile)
    components []

/-- buildPolygon of objectDetection.ts: the four bbox corners mapped into the
geographic bounds by the linear pixel-to-degree transform, as a closed
five-point ring (over the rationals the Number.isFinite span guard never
fires). -/
def buildPolygon (bbox : BoundingBox) (imageBounds : Option (ℚ × ℚ × ℚ × ℚ))
    (width height : ℕ) : Option (List (ℚ × ℚ)) :=
  match imageBounds with
  | Option.none => Option.none
  | some (minX, minY, maxX, maxY) =>
    let lonSpan := maxX - minX
    let latSpan := maxY - minY
    let toLon := fun (px : ℚ) => minX + px / max ((width : ℚ) - 1) 1 * lonSpan
    let toLat := fun (py : ℚ) => maxY - py / max ((height : ℚ) - 1) 1 * latSpan
    let x0 := bbox.x
    let y0 := bbox.y
    let x1 := bbox.x + bbox.width
    let y1 := bbox.y + bbox.height
    some [(toLon x0, toLat y1), (toLon x1, toLat y1), (toLon x1, toLat y0),
      (toLon x0, toLat y0), (toLon x0, toLat y1)]

/-- Renumbering map of detectObjects (ids ms-1, ms-2, ... or m-1, m-2, ...). -/
def renumberGo (pre : String) : List DetectionBox → ℕ → List DetectionBox
  | [], _ => []
  | b :: rest, i => { b with id := pre ++ toString (i + 1) } :: renumberGo pre rest (i + 1)

/-- Numeric result of detectObjects. -/
structure DetectionCoreResult : Type where
  thresholdValue : ℚ
  boxes : List DetectionBox
  totalDetections : ℕ
  averageConfidence : ℚ
  deriving Repr

/-- Numeric core of detectObjects of objectDetection.ts: normalisation,
multi-scale detection, cross-scale non-maximum suppression and the sparse or
top-biased fallback cascade (the canvas previews and debug data urls are
outside the numeric core). -/
def detectObjectsCore (data : List ℚ) (width height : ℕ)
    (options : ObjectDetectionOptions) (bounds : Option (ℚ × ℚ × ℚ × ℚ)) :
    DetectionCoreResult :=
  let normalized := normalize (data.map JSNum.fin)
  let thresholdValue := percentileB normalized options.thresholdPercentile
  let scaleFactors : List ℚ := [1, 1 / 2, 1 / 4]
  let allBoxes := scaleFactors.flatMap fun s =>
    let targetW := max 1 (round ((width : ℚ) * s)).toNat
    let targetH := max 1 (round ((height : ℚ) * s)).toNat
    let scaled := if s = 1 then normalized
      else resampleNearest normalized width height targetW targetH
    let scaledThreshold := percentileB scaled options.thresholdPercentile
    let mask := applyMorphology (createBinaryMask scaled scaledThreshold) targetW targetH
    let comps := floodFillComponents mask targetW targetH
    (buildDetectionBoxes comps mask scaled targetW targetH options).map fun b =>
      let factor := (targetW : ℚ) / (width : ℚ)
      { b with
        bbox := ⟨((round (b.bbox.x / factor) : ℤ) : ℚ),
          ((round (b.bbox.y / factor) : ℤ) : ℚ),
          max 1 ((round (b.bbox.width / factor) : ℤ) : ℚ),
          max 1 ((round (b.bbox.height / factor) : ℤ) : ℚ)⟩
        centroid := (b.centroid.1 / factor, b.centroid.2 / factor) }
  let boxes0 := nonMaximumSuppression (renumberGo "ms-" allBoxes 0) (35 / 100)
  let averageY := if boxes0.length ≠ 0 then
      (boxes0.map fun b => b.bbox.y + b.bbox.height / 2).sum / (boxes0.length : ℚ)
    else (height : ℚ)
  let final :=
    if boxes0.length < 12 ∨ averageY < (height : ℚ) * (2 / 10) then
      let altThreshold := max 0 (options.thresholdPercentile - 8)
      let altValue := percentileB normalized altThreshold
      let altMask := applyMorphology (createBinaryMask normalized altValue) width height
      let altComponents := floodFillComponents altMask width height
      let altBoxes := buildDetectionBoxes altComponents altMask normalized width height
        { options with thresholdPercentile := altThreshold }
      let localMask := applyMorphology (adaptiveBinaryMask normalized width height 64 12)
        width height
      let localComponents := floodFillComponents localMask width height
      let localBoxes := buildDetectionBoxes localComponents localMask normalized
        width height options
      let merged := boxes0 ++ altBoxes ++ localBoxes
      nonMaximumSuppression (renumberGo "m-" merged 0) (35 / 100)
    else boxes0
  let withFootprints := final.map fun b =>
    { b with footprint := buildPolygon b.bbox bounds width height }
  ⟨thresholdValue, withFootprints, withFootprints.length,
    if withFootprints.length ≠ 0 then
      (withFootprints.map fun b => b.confidence).sum / (withFootprints.length : ℚ)
    else 0⟩

/-! Theorems. -/

/-- C8: applySpeckleFilter with kind none, or any kind with windowSize at most
1, returns a buffer elementwise equal to the input; in this pure embedding the
result is a fresh value, so the caller's buffer is never mutated. -/
theorem applySpeckleFilter_passthrough (expQ : ℚ → ℚ) (values : List ℚ) (w h : ℕ)
    (filter : SpeckleKind) (size : ℚ)
    (hpass : filter = SpeckleKind.none ∨ size ≤ 1) :
    applySpeckleFilter expQ values w h filter size = values := by
  unfold applySpeckleFilter
  rw [if_pos hpass]

theorem applySpeckleFilter_passthrough_witness :
    applySpeckleFilter (fun q => q) [5, 7] 2 1 SpeckleKind.none 3 = [5, 7] ∧
    applySpeckleFilter (fun q => q) [5, 7] 2 1 SpeckleKind.lee 1 = [5, 7] :=
  ⟨applySpeckleFilter_passthrough (fun q => q) [5, 7] 2 1 SpeckleKind.none 3 (Or.inl rfl),
    applySpeckleFilter_passthrough (fun q => q) [5, 7] 2 1 SpeckleKind.lee 1
      (Or.inr (by norm_num))⟩

/-- Longitude map of buildPolygon (pixel x to degrees). -/
def toLonMap (minX maxX : ℚ) (width : ℕ) (px : ℚ) : ℚ :=
  minX + px / max ((width : ℚ) - 1) 1 * (maxX - minX)

/-- Latitude map of buildPolygon (pixel y to degrees). -/
def toLatMap (minY maxY : ℚ) (height : ℕ) (py : ℚ) : ℚ :=
  maxY - py / max ((height : ℚ) - 1) 1 * (maxY - minY)

/-- Inverse of toLonMap, the same linear transform solved for the pixel
coordinate. -/
def invLonMap (minX maxX : ℚ) (width : ℕ) (lon : ℚ) : ℚ :=
  (lon - minX) / (maxX - minX) * max ((width : ℚ) - 1) 1

/-- Inverse of toLatMap. -/
def invLatMap (minY maxY : ℚ) (height : ℕ) (lat : ℚ) : ℚ :=
  (maxY - lat) / (maxY - minY) * max ((height : ℚ) - 1) 1

/-- C9: buildPolygon emits exactly the four bbox corners (as a closed ring)
under its linear transform, and for non-degenerate bounds the inverse of that
same linear transform reproduces every pixel coordinate exactly, in
particular the four corners; over the rationals the round-trip is exact, so
it holds within any floating-point tolerance. -/
theorem buildPolygon_corner_roundtrip (bbox : BoundingBox) (minX minY maxX maxY : ℚ)
    (width height : ℕ) (hlon : maxX - minX ≠ 0) (hlat : maxY - minY ≠ 0) :
    buildPolygon bbox (some (minX, minY, maxX, maxY)) width height =
      some [(toLonMap minX maxX width bbox.x, toLatMap minY maxY height (bbox.y + bbox.height)),
        (toLonMap minX maxX width (bbox.x + bbox.width),
          toLatMap minY maxY height (bbox.y + bbox.height)),
        (toLonMap minX maxX width (bbox.x + bbox.width), toLatMap minY maxY height bbox.y),
        (toLonMap minX maxX width bbox.x, toLatMap minY maxY height bbox.y),
        (toLonMap minX maxX width bbox.x, toLatMap minY maxY height (bbox.y + bbox.height))] ∧
    (∀ px : ℚ, invLonMap minX maxX width (toLonMap minX maxX width px) = px) ∧
    (∀ py : ℚ, invLatMap minY maxY height (toLatMap minY maxY height py) = py) := by
  have hw : max ((width : ℚ) - 1) 1 ≠ 0 :=
    (lt_of_lt_of_le zero_lt_one (le_max_right _ _)).ne'
  have hh : max ((height : ℚ) - 1) 1 ≠ 0 :=
    (lt_of_lt_of_le zero_lt_one (le_max_right _ _)).ne'
  refine ⟨rfl, ?_, ?_⟩
  · intro px
    unfold invLonMap toLonMap
    field_simp
    ring
  · intro py
    unfold invLatMap toLatMap
    field_simp
    ring

theorem buildPolygon_corner_roundtrip_witness :
    invLonMap 0 10 5 (toLonMap 0 10 5 1) = 1 ∧
    invLatMap 0 20 5 (toLatMap 0 20 5 6) = 6 :=
  ⟨(buildPolygon_corner_roundtrip ⟨1, 2, 3, 4⟩ 0 0 10 20 5 5 (by norm_num)
      (by norm_num)).2.1 1,
    (buildPolygon_corner_roundtrip ⟨1, 2, 3, 4⟩ 0 0 10 20 5 5 (by norm_num)
      (by norm_num)).2.2 6⟩

/-- Replacement of non-finite samples by 0, the reading of the claim that
non-finite values are treated as 0 in the elementwise absolute difference. -/
def zeroNonFinite : JSNum → JSNum
  | JSNum.fin q => JSNum.fin q
  | _ => JSNum.fin 0

/-- C4 counterexample: a NaN sample is not treated as 0 by
absoluteDifference; it propagates as NaN instead of yielding the difference
against 0. -/
theorem absoluteDifference_nonfinite_counterexample :
    absoluteDifference [JSNum.fin 0] [JSNum.nan] ≠
      absoluteDifference ([JSNum.fin 0].map zeroNonFinite)
        ([JSNum.nan].map zeroNonFinite) := by
  with_unfolding_all decide

theorem jsub_fin_nonfinite (x : JSNum) (q : ℚ) (hx : x.isFinite = false) :
    (JSNum.jsub x (JSNum.fin q)).isFinite = false := by
  cases x with
  | fin r => simp [JSNum.isFinite] at hx
  | nan => rfl
  | posInf => rfl
  | negInf => rfl

theorem jdiv_fin_nonfinite (x : JSNum) (q : ℚ) (hx : x.isFinite = false) :
    (JSNum.jdiv x (JSNum.fin q)).isFinite = false := by
  cases x with
  | fin r => simp [JSNum.isFinite] at hx
  | nan => rfl
  | posInf => simp only [JSNum.jdiv]; split <;> rfl
  | negInf => simp only [JSNum.jdiv]; split <;> rfl

theorem jmul_fin_nonfinite (x : JSNum) (q : ℚ) (hx : x.isFinite = false) :
    (JSNum.jmul x (JSNum.fin q)).isFinite = false := by
  cases x with
  | fin r => simp [JSNum.isFinite] at hx
  | nan => rfl
  | posInf =>
    simp only [JSNum.jmul]
    split
    · rfl
    · split <;> rfl
  | negInf =>
    simp only [JSNum.jmul]
    split
    · rfl
    · split <;> rfl

theorem jsByte_nonfinite (x : JSNum) (hx : x.isFinite = false) : jsByte x = 0 := by
  cases x with
  | fin r => simp [JSNum.isFinite] at hx
  | nan => rfl
  | posInf => rfl
  | negInf => rfl

theorem jsub_nonfinite (x y : JSNum)
    (h : x.isFinite = false ∨ y.isFinite = false) :
    (JSNum.jsub x y).isFinite = false := by
  cases x <;> cases y <;> first | rfl | simp_all [JSNum.isFinite]

theorem jabs_nonfinite (x : JSNum) (hx : x.isFinite = false) :
    (JSNum.jabs x).isFinite = false := by
  cases x with
  | fin r => simp [JSNum.isFinite] at hx
  | nan => rfl
  | posInf => rfl
  | negInf => rfl

theorem filterMap_toFinite_filter (values : List JSNum) :
    (values.filter JSNum.isFinite).filterMap JSNum.toFinite =
      values.filterMap JSNum.toFinite := by
  induction values with
  | nil => rfl
  | cons x xs ih =>
    cases x <;> simp [JSNum.isFinite, JSNum.toFinite, List.filter_cons,
      List.filterMap_cons, ih]

theorem getD_range_map {α : Type} (f : ℕ → α) (n i : ℕ) (d : α) (hi : i < n) :
    ((List.range n).map f).getD i d = f i := by
  rw [List.getD_eq_getElem _ _ (by simpa using hi)]
  simp

/-- C4 amended: non-finite samples are excluded from the percentile
computation and map to 0 in normalization to bytes; in the elementwise
absolute difference a non-finite sample propagates to a non-finite difference
entry (which the normalization then maps to 0) rather than being replaced by
0, while a missing (out-of-range) sample is the one treated as 0. -/
theorem nonfinite_handling_spec :
    (∀ (values : List JSNum) (p : ℚ),
      percentile values p = percentile (values.filter JSNum.isFinite) p) ∧
    (∀ (values : List JSNum) (i : ℕ), i < values.length →
      (values.getD i JSNum.nan).isFinite = false →
      (normalizeToUint8 values).getD i 0 = 0) ∧
    (∀ (a b : List JSNum) (i : ℕ), i < a.length →
      ((a.getD i (JSNum.fin 0)).isFinite = false ∨
        (b.getD i (JSNum.fin 0)).isFinite = false) →
      ((absoluteDifference a b).getD i JSNum.nan).isFinite = false) ∧
    (∀ (a b : List JSNum) (i : ℕ), i < a.length → b.length ≤ i →
      (absoluteDifference a b).getD i JSNum.nan =
        JSNum.jabs (JSNum.jsub (JSNum.fin 0) (a.getD i (JSNum.fin 0)))) := by
  refine ⟨?_, ?_, ?_, ?_⟩
  · intro values p
    unfold percentile
    rw [filterMap_toFinite_filter]
  · intro values i hi hnf
    unfold normalizeToUint8
    rw [List.getD_eq_getElem _ _ (by simpa using hi), List.getElem_map]
    have hx : values[i] = values.getD i JSNum.nan := (List.getD_eq_getElem _ _ hi).symm
    rw [hx]
    exact jsByte_nonfinite _ (jmul_fin_nonfinite _ _
      (jdiv_fin_nonfinite _ _ (jsub_fin_nonfinite _ _ hnf)))
  · intro a b i hi hnf
    unfold absoluteDifference
    rw [getD_range_map _ _ _ _ hi]
    refine jabs_nonfinite _ (jsub_nonfinite _ _ ?_)
    tauto
  · intro a b i hi hb
    unfold absoluteDifference
    rw [getD_range_map _ _ _ _ hi, List.getD_eq_default _ _ hb]

theorem nonfinite_handling_spec_witness :
    (normalizeToUint8 [JSNum.posInf, JSNum.fin 3]).getD 0 0 = 0 ∧
    ((absoluteDifference [JSNum.fin 5] [JSNum.nan]).getD 0 JSNum.nan).isFinite = false :=
  ⟨nonfinite_handling_spec.2.1 [JSNum.posInf, JSNum.fin 3] 0 (by norm_num) rfl,
    nonfinite_handling_spec.2.2.1 [JSNum.fin 5] [JSNum.nan] 0 (by norm_num)
      (Or.inr rfl)⟩

theorem zsCheck_sound (img : List Bool) (w x y : ℕ) (i : ℕ)
    (h : zsCheck img w x y = some i) :
    i = y * w + x ∧ img.getD (y * w + x) false = true := by
  unfold zsCheck at h
  cases hp : img.getD (y * w + x) false with
  | false => rw [hp] at h; simp at h
  | true =>
    rw [hp] at h
    simp only [Bool.not_true, Bool.false_eq_true, if_false] at h
    split at h
    · simp at h
    · split at h
      · simp at h
      · split at h
        · simp at h
        · split at h
          · simp at h
          · exact ⟨(Option.some.inj h).symm, rfl⟩

theorem zsPass_mem_set (img : List Bool) (w h : ℕ) :
    ∀ i ∈ zsPass img w h, img.getD i false = true := by
  intro i hi
  unfold zsPass at hi
  rw [List.mem_flatMap] at hi
  obtain ⟨y', hy', hi⟩ := hi
  rw [List.mem_filterMap] at hi
  obtain ⟨x', hx', hc⟩ := hi
  obtain ⟨rfl, hset⟩ := zsCheck_sound img w (x' + 1) (y' + 1) i hc
  exact hset

theorem countP_set_false_le (l : List Bool) :
    ∀ i, (l.set i false).countP id ≤ l.countP id := by
  induction l with
  | nil => intro i; simp
  | cons a t ih =>
    intro i
    cases i with
    | zero =>
      simp only [List.set_cons_zero, List.countP_cons]
      cases a <;> simp
    | succ n =>
      simp only [List.set_cons_succ, List.countP_cons]
      exact Nat.add_le_add_right (ih n) _

theorem countP_set_false_lt (l : List Bool) :
    ∀ i, l.getD i false = true → (l.set i false).countP id < l.countP id := by
  induction l with
  | nil => intro i hi; simp at hi
  | cons a t ih =>
    intro i hi
    cases i with
    | zero =>
      simp only [List.getD_cons_zero] at hi
      subst hi
      simp [List.set_cons_zero, List.countP_cons]
    | succ n =>
      simp only [List.getD_cons_succ] at hi
      simp only [List.set_cons_succ, List.countP_cons]
      exact Nat.add_lt_add_right (ih n hi) _

theorem getD_set_false_ne (l : List Bool) :
    ∀ i j, i ≠ j → (l.set j false).getD i false = l.getD i false := by
  induction l with
  | nil => intro i j hij; simp
  | cons a t ih =>
    intro i j hij
    cases j with
    | zero =>
      cases i with
      | zero => exact absurd rfl hij
      | succ m => simp [List.set_cons_zero, List.getD_cons_succ]
    | succ n =>
      cases i with
      | zero => simp [List.set_cons_succ, List.getD_cons_zero]
      | succ m =>
        simp only [List.set_cons_succ, List.getD_cons_succ]
        exact ih m n (by omega)

theorem countP_clearAll_le (idxs : List ℕ) :
    ∀ img : List Bool, (clearAll img idxs).countP id ≤ img.countP id := by
  induction idxs with
  | nil => intro img; exact le_refl _
  | cons j rest ih =>
    intro img
    exact le_trans (ih (img.set j false)) (countP_set_false_le img j)

theorem countP_clearAll_lt (idxs : List ℕ) :
    ∀ (img : List Bool) (i : ℕ), i ∈ idxs → img.getD i false = true →
      (clearAll img idxs).countP id < img.countP id := by
  induction idxs with
  | nil => intro img i hi; simp at hi
  | cons j rest ih =>
    intro img i hi hset
    rcases List.mem_cons.mp hi with rfl | hi
    · exact lt_of_le_of_lt (countP_clearAll_le rest (img.set i false))
        (countP_set_false_lt img i hset)
    · by_cases hij : i = j
      · subst hij
        exact lt_of_le_of_lt (countP_clearAll_le rest (img.set i false))
          (countP_set_false_lt img i hset)
      · have hkeep : (img.set j false).getD i false = true := by
          rw [getD_set_false_ne img i j hij]; exact hset
        exact lt_of_lt_of_le (ih (img.set j false) i hi hkeep)
          (countP_set_false_le img j)

/-- C10: every round of the zhangSuenThin outer loop either removes at least
one set pixel (the changing flag is true and the set-pixel count strictly
decreases) or reports no change and leaves the mask untouched, so the
set-pixel count is a strictly decreasing termination measure across
pixel-removing rounds. -/
theorem zhangSuenRound_measure (img : List Bool) (w h : ℕ) :
    ((zhangSuenRound img w h).2 = true →
      (zhangSuenRound img w h).1.countP id < img.countP id) ∧
    ((zhangSuenRound img w h).2 = false → (zhangSuenRound img w h).1 = img) := by
  constructor
  · intro hch
    show (clearAll (clearAll img (zsPass img w h))
      (zsPass (clearAll img (zsPass img w h)) w h)).countP id < img.countP id
    have hch' : zsPass img w h ≠ [] ∨
        zsPass (clearAll img (zsPass img w h)) w h ≠ [] := by
      by_cases he1 : zsPass img w h = []
      · right
        intro he2
        have hh : (!(zsPass img w h).isEmpty ||
            !(zsPass (clearAll img (zsPass img w h)) w h).isEmpty) = true := hch
        rw [he1] at hh
        rw [he1] at he2
        rw [he2] at hh
        simp at hh
      · exact Or.inl he1
    rcases hch' with h1 | h1
    · obtain ⟨j, hj⟩ := List.exists_mem_of_ne_nil _ h1
      exact lt_of_le_of_lt (countP_clearAll_le _ _)
        (countP_clearAll_lt _ img j hj (zsPass_mem_set img w h j hj))
    · obtain ⟨j, hj⟩ := List.exists_mem_of_ne_nil _ h1
      exact lt_of_lt_of_le
        (countP_clearAll_lt _ _ j hj (zsPass_mem_set _ w h j hj))
        (countP_clearAll_le _ _)
  · intro hch
    show clearAll (clearAll img (zsPass img w h))
      (zsPass (clearAll img (zsPass img w h)) w h) = img
    have hor : (!(zsPass img w h).isEmpty ||
        !(zsPass (clearAll img (zsPass img w h)) w h).isEmpty) = false := hch
    have htr1 : zsPass img w h = [] := by
      cases hl : zsPass img w h with
      | nil => rfl
      | cons j rest => rw [hl] at hor; simp at hor
    rw [htr1]
    show clearAll img (zsPass img w h) = img
    rw [htr1]
    rfl

theorem zhangSuenRound_measure_witness :
    (zhangSuenRound
      [false, false, false, false, false,
       false, true, true, true, false,
       false, true, true, true, false,
       false, true, true, true, false,
       false, false, false, false, false] 5 5).1.countP id <
    ([false, false, false, false, false,
      false, true, true, true, false,
      false, true, true, true, false,
      false, true, true, true, false,
      false, false, false, false, false] : List Bool).countP id :=
  (zhangSuenRound_measure _ 5 5).1 (by decide)

theorem buildBoxesGo_length_le (mask : List Bool) (data : List ℕ) (w h : ℕ)
    (options : ObjectDetectionOptions) (t : ℚ) (m : ℕ)
    (hm : options.maxDetections = some m) (hm0 : m ≠ 0) :
    ∀ (comps : List (List ℕ)) (boxes : List DetectionBox),
      boxes.length < m →
      (buildBoxesGo mask data w h options t comps boxes).length ≤ m := by
  intro comps
  induction comps with
  | nil => intro boxes hb; exact le_of_lt hb
  | cons pixels rest ih =>
    intro boxes hb
    unfold buildBoxesGo
    cases hbx : buildOneBox mask data w h options t boxes.length pixels with
    | none => exact ih boxes hb
    | some box =>
      have hlen : (boxes ++ [box]).length = boxes.length + 1 := by simp
      show (if (maxDetTruthy options.maxDetections &&
          decide ((boxes ++ [box]).length ≥ options.maxDetections.getD 0)) = true
        then boxes ++ [box]
        else buildBoxesGo mask data w h options t rest (boxes ++ [box])).length ≤ m
      by_cases hge : (boxes ++ [box]).length ≥ m
      · have hcond : (maxDetTruthy options.maxDetections &&
            decide ((boxes ++ [box]).length ≥ options.maxDetections.getD 0)) = true := by
          rw [hm]
          simp only [maxDetTruthy, Option.getD_some, Bool.and_eq_true, decide_eq_true_eq]
          exact ⟨by simp [hm0], hge⟩
        rw [if_pos hcond, hlen]
        omega
      · have hcond : (maxDetTruthy options.maxDetections &&
            decide ((boxes ++ [box]).length ≥ options.maxDetections.getD 0)) = false := by
          rw [hm]
          simp only [maxDetTruthy, Option.getD_some, Bool.and_eq_false_iff]
          right
          simpa using hge
        rw [if_neg (by simp only [hcond]; exact Bool.false_ne_true)]
        refine ih (boxes ++ [box]) ?_
        rw [hlen]
        rw [hlen] at hge
        omega

/-- C5 amended: every single buildDetectionBoxes pass (one scale or one
fallback strategy) returns at most maxDetections boxes when maxDetections is
a positive value; the merged multi-scale and fallback output of detectObjects
is only deduplicated by NMS and may exceed maxDetections. -/
theorem buildDetectionBoxes_cap (components : List (List ℕ)) (mask : List Bool)
    (data : List ℕ) (w h : ℕ) (options : ObjectDetectionOptions) (m : ℕ)
    (hm : options.maxDetections = some m) (hm0 : m ≠ 0) :
    (buildDetectionBoxes components mask data w h options).length ≤ m := by
  unfold buildDetectionBoxes
  exact buildBoxesGo_length_le mask data w h options _ m hm hm0 components []
    (Nat.pos_of_ne_zero hm0)

theorem buildDetectionBoxes_cap_witness :
    (buildDetectionBoxes [[0], [2]] [true, false, true] [255, 0, 255] 3 1
      ⟨0, 1, some 1⟩).length ≤ 1 :=
  buildDetectionBoxes_cap [[0], [2]] [true, false, true] [255, 0, 255] 3 1
    ⟨0, 1, some 1⟩ 1 rfl (by decide)

/-- Raster with two bright 2x2 blobs in opposite corners, used to exhibit a
detectObjects run whose merged output exceeds maxDetections. -/
def twoBlobRaster : List ℚ :=
  [255, 255, 0, 0, 0, 0, 0, 0,
   255, 255, 0, 0, 0, 0, 0, 0,
   0, 0, 0, 0, 0, 0, 0, 0,
   0, 0, 0, 0, 0, 0, 0, 0,
   0, 0, 0, 0, 0, 0, 0, 0,
   0, 0, 0, 0, 0, 0, 0, 0,
   0, 0, 0, 0, 0, 0, 255, 255,
   0, 0, 0, 0, 0, 0, 255, 255]

/-- C5 counterexample: with maxDetections = 1 the detectObjects core returns
two boxes on the two-blob raster, because each scale pass and each fallback
pass is capped separately and the final NMS keeps non-overlapping boxes from
different passes. -/
theorem detectObjects_maxDetections_counterexample :
    1 < (detectObjectsCore twoBlobRaster 8 8 ⟨95, 1, some 1⟩ Option.none).boxes.length := by
  have hlen : (detectObjectsCore twoBlobRaster 8 8 ⟨95, 1, some 1⟩
      Option.none).boxes.length = 2 := by
    set_option maxRecDepth 100000 in with_unfolding_all rfl
  rw [hlen]
  omega

theorem clamp_le_one (x : ℚ) : clamp x ≤ 1 := min_le_left _ _

theorem clamp_nonneg (x : ℚ) : 0 ≤ clamp x :=
  le_min zero_le_one (le_max_left 0 x)

theorem componentLinearityOf_le_one (mask : List Bool) (pixels : List ℕ)
    (w h : ℕ) : componentLinearityOf mask pixels w h ≤ 1 := by
  unfold componentLinearityOf componentLinearity
  exact clamp_le_one _

/-- C6: whenever the computed linearity ratio exceeds 0.25 and the major
bounding-box axis is at least 20 pixels, the box built from the component is
forcibly categorised as bridge (aspect ratio above 3 or major axis above 50)
or border-wall (otherwise), regardless of the heuristic classifier's own
choice, and the shape score entering the confidence blend is boosted to at
least the corresponding floor (0.6 plus 0.4 linearity for bridge, 0.55 plus
0.35 linearity for border-wall), never below the classifier's score. -/
theorem buildOneBox_linearity_override (mask : List Bool) (data : List ℕ)
    (w h : ℕ) (options : ObjectDetectionOptions) (t : ℚ) (n : ℕ)
    (pixels : List ℕ) (box : DetectionBox)
    (hlin : componentLinearityOf mask pixels w h > 1 / 4)
    (hmaj : (componentMajor pixels w h : ℚ) ≥ 20)
    (hbox : buildOneBox mask data w h options t n pixels = some box) :
    (box.categoryId =
      if componentAspect pixels w h > 3 ∨ (componentMajor pixels w h : ℚ) > 50
      then UrbanFeatureCategory.bridge else UrbanFeatureCategory.borderWall) ∧
    (∀ s : ℚ,
      adjustedShapeScore s (componentLinearityOf mask pixels w h)
          (componentAspect pixels w h) (componentMajor pixels w h) ≥
        (if componentAspect pixels w h > 3 ∨ (componentMajor pixels w h : ℚ) > 50
          then 6 / 10 + componentLinearityOf mask pixels w h * (4 / 10)
          else 55 / 100 + componentLinearityOf mask pixels w h * (35 / 100)) ∧
      (s ≤ 1 →
        adjustedShapeScore s (componentLinearityOf mask pixels w h)
          (componentAspect pixels w h) (componentMajor pixels w h) ≥ s)) := by
  have hforce : forcedCategory (componentLinearityOf mask pixels w h)
      (componentAspect pixels w h) ((componentMajor pixels w h : ℕ) : ℚ) =
      some (if componentAspect pixels w h > 3 ∨ (componentMajor pixels w h : ℚ) > 50
        then UrbanFeatureCategory.bridge else UrbanFeatureCategory.borderWall) := by
    unfold forcedCategory
    rw [if_pos ⟨hlin, hmaj⟩]
  constructor
  · unfold buildOneBox at hbox
    split at hbox
    · simp at hbox
    · dsimp only [] at hbox
      split at hbox
      · simp at hbox
      · rw [← Option.some.inj hbox]
        show (forcedCategory (componentLinearityOf mask pixels w h)
          (componentAspect pixels w h)
          ((componentMajor pixels w h : ℕ) : ℚ)).getD
            (classifyUrbanFeature _).categoryId = _
        rw [hforce, Option.getD_some]
  · intro s
    have hle1 : componentLinearityOf mask pixels w h ≤ 1 :=
      componentLinearityOf_le_one mask pixels w h
    unfold adjustedShapeScore
    rw [if_pos ⟨hlin, hmaj⟩]
    by_cases hbr : componentAspect pixels w h > 3 ∨ (componentMajor pixels w h : ℚ) > 50
    · rw [if_pos hbr, if_pos hbr]
      constructor
      · refine le_min (by linarith) ?_
        exact le_max_of_le_right (le_max_right _ _)
      · intro hs
        refine le_min hs (le_max_of_le_right (le_max_left _ _))
    · rw [if_neg hbr, if_neg hbr]
      constructor
      · refine le_min (by linarith) ?_
        exact le_max_of_le_right (le_max_right _ _)
      · intro hs
        refine le_min hs (le_max_of_le_right (le_max_left _ _))

theorem buildOneBox_linearity_override_witness :
    (Option.map DetectionBox.categoryId
      (buildOneBox (List.replicate 21 true) (List.replicate 21 255) 21 1
        ⟨95, 1, Option.none⟩ 0 0 (List.range 21))).getD
      UrbanFeatureCategory.urbanFeature = UrbanFeatureCategory.bridge := by
  cases hbox : buildOneBox (List.replicate 21 true) (List.replicate 21 255) 21 1
      ⟨95, 1, Option.none⟩ 0 0 (List.range 21) with
  | none =>
    exfalso
    have hsome : (buildOneBox (List.replicate 21 true) (List.replicate 21 255) 21 1
        ⟨95, 1, Option.none⟩ 0 0 (List.range 21)).isSome = true := by
      with_unfolding_all rfl
    rw [hbox] at hsome
    simp at hsome
  | some box =>
    have hlin : componentLinearityOf (List.replicate 21 true) (List.range 21) 21 1 = 1 := by
      with_unfolding_all rfl
    have hmaj : componentMajor (List.range 21) 21 1 = 21 := by
      with_unfolding_all rfl
    have hasp : componentAspect (List.range 21) 21 1 = 21 := by
      with_unfolding_all rfl
    have h := buildOneBox_linearity_override (List.replicate 21 true)
      (List.replicate 21 255) 21 1 ⟨95, 1, Option.none⟩ 0 0 (List.range 21) box
      (by rw [hlin]; norm_num) (by rw [hmaj]; norm_num) hbox
    simp only [Option.map_some', Option.getD_some]
    rw [h.1, if_pos (Or.inl (by rw [hasp]; norm_num))]

theorem iou_comm (a b : BoundingBox) : iou a b = iou b a := by
  simp only [iou]
  rw [max_comm a.x b.x, max_comm a.y b.y, min_comm (a.x + a.width) (b.x + b.width),
    min_comm (a.y + a.height) (b.y + b.height),
    add_comm (a.width * a.height) (b.width * b.height)]

theorem nmsGo_pairwise (t : ℚ) :
    ∀ (rest keep : List DetectionBox),
      keep.Pairwise (fun a b => iou a.bbox b.bbox < t) →
      (nmsGo t rest keep).Pairwise (fun a b => iou a.bbox b.bbox < t) := by
  intro rest
  induction rest with
  | nil => intro keep hk; exact hk
  | cons bx rest ih =>
    intro keep hk
    unfold nmsGo
    by_cases hskip : (keep.any fun k => decide (iou bx.bbox k.bbox ≥ t)) = true
    · rw [if_pos hskip]
      exact ih keep hk
    · rw [if_neg hskip]
      refine ih (keep ++ [bx]) ?_
      rw [List.pairwise_append]
      refine ⟨hk, List.pairwise_singleton _ _, ?_⟩
      intro a ha c hc
      rcases List.mem_singleton.mp hc with rfl
      have hall : ¬(iou c.bbox a.bbox ≥ t) := by
        intro hge
        exact hskip (List.any_eq_true.mpr ⟨a, ha, decide_eq_true hge⟩)
      rw [iou_comm]
      exact lt_of_not_ge hall

theorem nmsGo_sublist (t : ℚ) :
    ∀ (rest keep : List DetectionBox), (nmsGo t rest keep).Sublist (keep ++ rest) := by
  intro rest
  induction rest with
  | nil =>
    intro keep
    show keep.Sublist (keep ++ [])
    rw [List.append_nil]
  | cons bx rest ih =>
    intro keep
    unfold nmsGo
    by_cases hskip : (keep.any fun k => decide (iou bx.bbox k.bbox ≥ t)) = true
    · rw [if_pos hskip]
      exact (ih keep).trans (List.Sublist.append_left (List.sublist_cons_self bx rest) keep)
    · rw [if_neg hskip]
      have h := ih (keep ++ [bx])
      rwa [List.append_assoc, List.singleton_append] at h

/-- C3: the non-maximum suppression output has no two boxes with IoU at or
above the threshold, every returned box is one of the input boxes, the output
is sorted in descending confidence, and equal-confidence boxes keep their
original input order (the output restricted to any confidence class is a
subsequence of the input restricted to that class). -/
theorem nonMaximumSuppression_spec (boxes : List DetectionBox) (t : ℚ) :
    (nonMaximumSuppression boxes t).Pairwise (fun a b => iou a.bbox b.bbox < t) ∧
    (∀ b ∈ nonMaximumSuppression boxes t, b ∈ boxes) ∧
    (nonMaximumSuppression boxes t).Pairwise
      (fun a b => b.confidence ≤ a.confidence) ∧
    (∀ q : ℚ,
      ((nonMaximumSuppression boxes t).filter fun b =>
        decide (b.confidence = q)).Sublist
      (boxes.filter fun b => decide (b.confidence = q))) := by
  have hsub : (nonMaximumSuppression boxes t).Sublist (sortWith confDesc boxes) := by
    have h := nmsGo_sublist t (sortWith confDesc boxes) []
    simpa using h
  have htot : ∀ a b, confDesc a b = true ∨ confDesc b a = true := by
    intro a b
    unfold confDesc
    rcases le_total b.confidence a.confidence with h | h
    · exact Or.inl (decide_eq_true h)
    · exact Or.inr (decide_eq_true h)
  have htrans : ∀ a b c, confDesc a b = true → confDesc b c = true →
      confDesc a c = true := by
    intro a b c hab hbc
    unfold confDesc at hab hbc ⊢
    exact decide_eq_true (le_trans (of_decide_eq_true hbc) (of_decide_eq_true hab))
  have hsort : (sortWith confDesc boxes).Pairwise (fun a b => confDesc a b = true) :=
    sortWith_pairwise confDesc htot htrans boxes
  refine ⟨?_, ?_, ?_, ?_⟩
  · exact nmsGo_pairwise t (sortWith confDesc boxes) [] List.Pairwise.nil
  · intro b hb
    exact (mem_sortWith confDesc boxes b).mp (hsub.subset hb)
  · refine (hsort.sublist hsub).imp ?_
    intro a b hab
    exact of_decide_eq_true hab
  · intro q
    have hstab := sortWith_filter_stable confDesc
      (fun b => decide (b.confidence = q)) ?_ boxes
    · exact hstab ▸ hsub.filter (fun b => decide (b.confidence = q))
    · intro x y hxy hx
      have hlt : x.confidence < y.confidence :=
        lt_of_not_ge (fun hge => by
          unfold confDesc at hxy
          rw [decide_eq_true hge] at hxy
          simp at hxy)
      have hxq : x.confidence = q := of_decide_eq_true hx
      refine decide_eq_false ?_
      intro hyq
      rw [hxq] at hlt
      rw [hyq] at hlt
      exact lt_irrefl q hlt

theorem length_normalizeToUint8 (values : List JSNum) :
    (normalizeToUint8 values).length = values.length := by
  simp [normalizeToUint8]

theorem length_absoluteDifference (a b : List JSNum) :
    (absoluteDifference a b).length = a.length := by
  simp [absoluteDifference]

theorem length_assignLabels (values : List ℕ) (centers : List ℚ) :
    (assignLabels values centers).length = values.length := by
  simp [assignLabels]

theorem length_kmeansLoop (values : List ℕ) :
    ∀ (n : ℕ) (centers : List ℚ) (labels : List ℕ),
      labels.length = values.length →
      (kmeansLoop values n centers labels).2.length = values.length := by
  intro n
  induction n with
  | zero => intro centers labels hl; exact hl
  | succ k ih => intro centers labels hl; exact ih _ _ (length_assignLabels values centers)

theorem length_kmeans1D (values : List ℕ) (clusters iterations : ℕ) :
    (kmeans1D values clusters iterations).2.length = values.length := by
  unfold kmeans1D
  exact length_kmeansLoop values iterations _ _ (by simp)

theorem length_computeMask (diff : List ℕ) (w h : ℕ) (sqrtQ : ℚ → ℚ)
    (options : ChangeDetectionOptions) :
    (computeMask diff w h sqrtQ options).length = diff.length := by
  rcases options with ⟨alg, kc, ki, cont, man, sf, ss, pp⟩
  cases alg <;> simp [computeMask, length_kmeans1D]

theorem length_dilate (m : List Bool) (w h r : ℕ) (hm : m.length = w * h) :
    (dilate m w h r).length = w * h := by
  unfold dilate
  split
  · exact hm
  · simp

theorem length_erode (m : List Bool) (w h r : ℕ) (hm : m.length = w * h) :
    (erode m w h r).length = w * h := by
  unfold erode
  split
  · exact hm
  · simp

theorem length_fillHoles (mask : List Bool) (w h : ℕ) :
    (fillHoles mask w h).length = mask.length := by
  simp [fillHoles]

theorem length_foldl_set :
    ∀ (idxs : List ℕ) (l : List Bool),
      (idxs.foldl (fun m i => m.set i false) l).length = l.length := by
  intro idxs
  induction idxs with
  | nil => intro l; rfl
  | cons j rest ih =>
    intro l
    rw [List.foldl_cons, ih]
    exact List.length_set l j false

theorem length_rscGo (mask : List Bool) (w minArea : ℕ) :
    ∀ (idxs : List ℕ) (visited out : List Bool),
      (rscGo mask w minArea idxs visited out).length = out.length := by
  intro idxs
  induction idxs with
  | nil => intro visited out; rfl
  | cons i rest ih =>
    intro visited out
    unfold rscGo
    by_cases hc : (mask.getD i false && !(visited.getD i false)) = true
    · rw [if_pos hc]
      rw [ih]
      split
      · exact length_foldl_set _ _
      · rfl
    · rw [if_neg hc]
      exact ih visited out

theorem length_removeSmallComponents (mask : List Bool) (w h minArea : ℕ) :
    (removeSmallComponents mask w h minArea).length = mask.length := by
  unfold removeSmallComponents
  split
  · rfl
  · exact length_rscGo mask w minArea _ _ _

theorem length_postProcessMask (mask : List Bool) (w h : ℕ)
    (options : PostProcessOptions) (hm : mask.length = w * h) :
    (postProcessMask mask w h options).length = w * h := by
  have l1 : ∀ m : List Bool, m.length = w * h →
      (if options.openingRadius > 0 then
        dilate (erode m w h options.openingRadius) w h options.openingRadius
      else m).length = w * h := by
    intro m hm'
    split
    · exact length_dilate _ _ _ _ (length_erode _ _ _ _ hm')
    · exact hm'
  have l2 : ∀ m : List Bool, m.length = w * h →
      (if options.closingRadius > 0 then
        erode (dilate m w h options.closingRadius) w h options.closingRadius
      else m).length = w * h := by
    intro m hm'
    split
    · exact length_erode _ _ _ _ (length_dilate _ _ _ _ hm')
    · exact hm'
  have l3 : ∀ m : List Bool, m.length = w * h →
      (if options.fillHoles then fillHoles m w h else m).length = w * h := by
    intro m hm'
    split
    · rw [length_fillHoles]; exact hm'
    · exact hm'
  have l4 : ∀ m : List Bool, m.length = w * h →
      (if options.minBlobArea > 1 then removeSmallComponents m w h options.minBlobArea
      else m).length = w * h := by
    intro m hm'
    split
    · rw [length_removeSmallComponents]; exact hm'
    · exact hm'
  exact l4 _ (l3 _ (l2 _ (l1 _ hm)))

theorem length_applySpeckleFilter (expQ : ℚ → ℚ) (values : List ℚ) (w h : ℕ)
    (filter : SpeckleKind) (size : ℚ) :
    (applySpeckleFilter expQ values w h filter size).length = values.length := by
  unfold applySpeckleFilter
  split
  · rfl
  · simp

theorem length_resampleFloat32Nearest (data : List ℚ) (srcW srcH dstW dstH : ℕ)
    (hne : ¬(srcW = dstW ∧ srcH = dstH)) :
    (resampleFloat32Nearest data srcW srcH dstW dstH).length = dstW * dstH := by
  unfold resampleFloat32Nearest
  rw [if_neg hne]
  simp

theorem analyzeChangeCore_mask_length (expQ sqrtQ : ℚ → ℚ)
    (beforeData : List ℚ) (beforeWidth beforeHeight : ℕ)
    (afterData : List ℚ) (afterWidth afterHeight : ℕ)
    (options : ChangeDetectionOptions)
    (hb : beforeData.length = beforeWidth * beforeHeight) :
    (analyzeChangeCore expQ sqrtQ beforeData beforeWidth beforeHeight afterData
      afterWidth afterHeight options).mask.length = afterWidth * afterHeight := by
  have hal : (if beforeWidth = afterWidth ∧ beforeHeight = afterHeight then beforeData
      else resampleFloat32Nearest beforeData beforeWidth beforeHeight afterWidth
        afterHeight).length = afterWidth * afterHeight := by
    split
    · rename_i hdim
      rw [hb, hdim.1, hdim.2]
    · rename_i hdim
      exact length_resampleFloat32Nearest _ _ _ _ _ hdim
  show (postProcessMask _ afterWidth afterHeight options.postProcess).length =
    afterWidth * afterHeight
  refine length_postProcessMask _ _ _ _ ?_
  rw [length_computeMask, length_normalizeToUint8, length_absoluteDifference,
    List.length_map, length_applySpeckleFilter]
  exact hal

/-- C2: the change percentage equals 100 times the set-pixel count of the
returned post-processed mask divided by width times height, and lies in
[0, 100] (under the raster invariant that each sample buffer has length
width times height and the dimensions are positive). -/
theorem analyzeChange_changePercentage_spec (expQ sqrtQ : ℚ → ℚ)
    (beforeData : List ℚ) (beforeWidth beforeHeight : ℕ)
    (afterData : List ℚ) (afterWidth afterHeight : ℕ)
    (options : ChangeDetectionOptions)
    (hb : beforeData.length = beforeWidth * beforeHeight)
    (ha : afterData.length = afterWidth * afterHeight)
    (hw : 0 < afterWidth) (hh : 0 < afterHeight) :
    (analyzeChangeCore expQ sqrtQ beforeData beforeWidth beforeHeight afterData
        afterWidth afterHeight options).changePercentage =
      100 * ((analyzeChangeCore expQ sqrtQ beforeData beforeWidth beforeHeight
          afterData afterWidth afterHeight options).mask.countP id : ℚ) /
        ((afterWidth : ℚ) * (afterHeight : ℚ)) ∧
    0 ≤ (analyzeChangeCore expQ sqrtQ beforeData beforeWidth beforeHeight afterData
        afterWidth afterHeight options).changePercentage ∧
    (analyzeChangeCore expQ sqrtQ beforeData beforeWidth beforeHeight afterData
        afterWidth afterHeight options).changePercentage ≤ 100 := by
  have hCP : (analyzeChangeCore expQ sqrtQ beforeData beforeWidth beforeHeight
      afterData afterWidth afterHeight options).changePercentage =
      ((analyzeChangeCore expQ sqrtQ beforeData beforeWidth beforeHeight afterData
        afterWidth afterHeight options).mask.countP id : ℚ) /
        ((afterWidth : ℚ) * (afterHeight : ℚ)) * 100 := rfl
  have hmask := analyzeChangeCore_mask_length expQ sqrtQ beforeData beforeWidth
    beforeHeight afterData afterWidth afterHeight options hb
  have hcount : (analyzeChangeCore expQ sqrtQ beforeData beforeWidth beforeHeight
      afterData afterWidth afterHeight options).mask.countP id ≤
      afterWidth * afterHeight := by
    rw [← hmask]
    exact List.countP_le_length id
  have hwh : (0 : ℚ) < (afterWidth : ℚ) * (afterHeight : ℚ) := by
    have : (0 : ℚ) < (afterWidth : ℚ) := by exact_mod_cast hw
    have h2 : (0 : ℚ) < (afterHeight : ℚ) := by exact_mod_cast hh
    positivity
  refine ⟨by rw [hCP]; ring, ?_, ?_⟩
  · rw [hCP]
    have hc0 : (0 : ℚ) ≤ ((analyzeChangeCore expQ sqrtQ beforeData beforeWidth
        beforeHeight afterData afterWidth afterHeight options).mask.countP id : ℚ) := by
      positivity
    have := div_nonneg hc0 (le_of_lt hwh)
    linarith
  · rw [hCP]
    have hcQ : ((analyzeChangeCore expQ sqrtQ beforeData beforeWidth beforeHeight
        afterData afterWidth afterHeight options).mask.countP id : ℚ) ≤
        (afterWidth : ℚ) * (afterHeight : ℚ) := by
      exact_mod_cast hcount
    have hdiv : ((analyzeChangeCore expQ sqrtQ beforeData beforeWidth beforeHeight
        afterData afterWidth afterHeight options).mask.countP id : ℚ) /
        ((afterWidth : ℚ) * (afterHeight : ℚ)) ≤ 1 :=
      (div_le_one hwh).mpr hcQ
    linarith

/-- Options used by the small concrete instances. -/
def tinyOptions : ChangeDetectionOptions :=
  ⟨Algorithm.otsu, Option.none, Option.none, Option.none, Option.none,
    Option.none, Option.none, ⟨0, 0, false, 0⟩⟩

theorem analyzeChange_changePercentage_spec_witness :
    (analyzeChangeCore (fun q => q) (fun q => q) [0] 1 1 [0] 1 1
        tinyOptions).changePercentage =
      100 * ((analyzeChangeCore (fun q => q) (fun q => q) [0] 1 1 [0] 1 1
          tinyOptions).mask.countP id : ℚ) / (((1 : ℕ) : ℚ) * ((1 : ℕ) : ℚ)) ∧
    0 ≤ (analyzeChangeCore (fun q => q) (fun q => q) [0] 1 1 [0] 1 1
        tinyOptions).changePercentage ∧
    (analyzeChangeCore (fun q => q) (fun q => q) [0] 1 1 [0] 1 1
        tinyOptions).changePercentage ≤ 100 :=
  analyzeChange_changePercentage_spec (fun q => q) (fun q => q) [0] 1 1 [0] 1 1
    tinyOptions rfl rfl (by norm_num) (by norm_num)

theorem mem_offs {r : ℕ} {d : ℤ} : d ∈ offs r ↔ -(r : ℤ) ≤ d ∧ d ≤ (r : ℤ) := by
  simp only [offs, List.mem_map, List.mem_range]
  constructor
  · rintro ⟨k, hk, rfl⟩
    omega
  · rintro ⟨h1, h2⟩
    exact ⟨(d + r).toNat, by omega, by omega⟩

theorem grid_flat_lt (w h x y : ℕ) (hx : x < w) (hy : y < h) : y * w + x < w * h := by
  calc y * w + x < y * w + w := by omega
  _ = (y + 1) * w := by ring
  _ ≤ h * w := Nat.mul_le_mul_right w hy
  _ = w * h := Nat.mul_comm h w

theorem grid_flat_mod (w x y : ℕ) (hx : x < w) : (y * w + x) % w = x := by
  rw [Nat.mul_comm y w, Nat.mul_add_mod, Nat.mod_eq_of_lt hx]

theorem grid_flat_div (w x y : ℕ) (hx : x < w) : (y * w + x) / w = y := by
  rw [Nat.mul_comm y w, Nat.mul_add_div (by omega), Nat.div_eq_of_lt hx, add_zero]

theorem pixAt_true_grid (m : List Bool) (w h : ℕ) (x y : ℤ)
    (hx : pixAt m w h x y = true) :
    0 ≤ x ∧ x < (w : ℤ) ∧ 0 ≤ y ∧ y < (h : ℤ) := by
  unfold pixAt at hx
  by_cases hg : 0 ≤ x ∧ x < (w : ℤ) ∧ 0 ≤ y ∧ y < (h : ℤ)
  · exact hg
  · rw [if_neg hg] at hx
    exact absurd hx (by simp)

theorem pixAt_dilate (m : List Bool) (w h r : ℕ) (hr : r ≠ 0) (x y : ℤ) :
    pixAt (dilate m w h r) w h x y = true ↔
      (0 ≤ x ∧ x < (w : ℤ) ∧ 0 ≤ y ∧ y < (h : ℤ)) ∧
      ∃ u v : ℤ, -(r : ℤ) ≤ u ∧ u ≤ (r : ℤ) ∧ -(r : ℤ) ≤ v ∧ v ≤ (r : ℤ) ∧
        pixAt m w h (x + u) (y + v) = true := by
  by_cases hg : 0 ≤ x ∧ x < (w : ℤ) ∧ 0 ≤ y ∧ y < (h : ℤ)
  · rw [show pixAt (dilate m w h r) w h x y =
      (dilate m w h r).getD (y.toNat * w + x.toNat) false from by
        unfold pixAt; rw [if_pos hg]]
    have hxw : x.toNat < w := by omega
    have hyh : y.toNat < h := by omega
    have hidx : y.toNat * w + x.toNat < w * h := grid_flat_lt w h x.toNat y.toNat hxw hyh
    rw [dilate, if_neg hr, getD_range_map _ _ _ _ hidx]
    dsimp only []
    rw [grid_flat_mod w x.toNat y.toNat hxw, grid_flat_div w x.toNat y.toNat hxw,
      Int.toNat_of_nonneg hg.1, Int.toNat_of_nonneg hg.2.2.1]
    rw [List.any_eq_true]
    constructor
    · rintro ⟨dy, hdy, hdx⟩
      rw [List.any_eq_true] at hdx
      obtain ⟨dx, hdxm, hpix⟩ := hdx
      exact ⟨hg, dx, dy, (mem_offs.mp hdxm).1, (mem_offs.mp hdxm).2,
        (mem_offs.mp hdy).1, (mem_offs.mp hdy).2, hpix⟩
    · rintro ⟨-, u, v, hu1, hu2, hv1, hv2, hpix⟩
      exact ⟨v, mem_offs.mpr ⟨hv1, hv2⟩,
        List.any_eq_true.mpr ⟨u, mem_offs.mpr ⟨hu1, hu2⟩, hpix⟩⟩
  · rw [show pixAt (dilate m w h r) w h x y = false from by
      unfold pixAt; rw [if_neg hg]]
    simp [hg]

theorem bool_imp_or (g p : Bool) : (!g || p) = true ↔ (g = true → p = true) := by
  cases g <;> cases p <;> simp

theorem pixAt_erode (m : List Bool) (w h r : ℕ) (hr : r ≠ 0) (x y : ℤ) :
    pixAt (erode m w h r) w h x y = true ↔
      (0 ≤ x ∧ x < (w : ℤ) ∧ 0 ≤ y ∧ y < (h : ℤ)) ∧
      ∀ u v : ℤ, -(r : ℤ) ≤ u → u ≤ (r : ℤ) → -(r : ℤ) ≤ v → v ≤ (r : ℤ) →
        (0 ≤ x + u ∧ x + u < (w : ℤ) ∧ 0 ≤ y + v ∧ y + v < (h : ℤ)) →
        pixAt m w h (x + u) (y + v) = true := by
  by_cases hg : 0 ≤ x ∧ x < (w : ℤ) ∧ 0 ≤ y ∧ y < (h : ℤ)
  · rw [show pixAt (erode m w h r) w h x y =
      (erode m w h r).getD (y.toNat * w + x.toNat) false from by
        unfold pixAt; rw [if_pos hg]]
    have hxw : x.toNat < w := by omega
    have hyh : y.toNat < h := by omega
    have hidx : y.toNat * w + x.toNat < w * h := grid_flat_lt w h x.toNat y.toNat hxw hyh
    rw [erode, if_neg hr, getD_range_map _ _ _ _ hidx]
    dsimp only []
    rw [grid_flat_mod w x.toNat y.toNat hxw, grid_flat_div w x.toNat y.toNat hxw,
      Int.toNat_of_nonneg hg.1, Int.toNat_of_nonneg hg.2.2.1]
    rw [List.all_eq_true]
    constructor
    · intro hall
      refine ⟨hg, ?_⟩
      intro u v hu1 hu2 hv1 hv2 hgrid
      have h1 := hall v (mem_offs.mpr ⟨hv1, hv2⟩)
      rw [List.all_eq_true] at h1
      have h2 := h1 u (mem_offs.mpr ⟨hu1, hu2⟩)
      rw [bool_imp_or] at h2
      exact h2 (by simp [inGridB]; exact ⟨hgrid.1, hgrid.2.1, hgrid.2.2.1, hgrid.2.2.2⟩)
    · rintro ⟨-, hall⟩
      intro v hv
      rw [List.all_eq_true]
      intro u hu
      rw [bool_imp_or]
      intro hgb
      have hgrid : 0 ≤ x + u ∧ x + u < (w : ℤ) ∧ 0 ≤ y + v ∧ y + v < (h : ℤ) := by
        simpa [inGridB] using hgb
      exact hall u v (mem_offs.mp hu).1 (mem_offs.mp hu).2 (mem_offs.mp hv).1
        (mem_offs.mp hv).2 hgrid
  · rw [show pixAt (erode m w h r) w h x y = false from by
      unfold pixAt; rw [if_neg hg]]
    simp [hg]

theorem dilate_congr (m₁ m₂ : List Bool) (w h r : ℕ) (hr : r ≠ 0)
    (hpix : ∀ x y : ℤ, pixAt m₁ w h x y = pixAt m₂ w h x y) :
    dilate m₁ w h r = dilate m₂ w h r := by
  unfold dilate
  rw [if_neg hr, if_neg hr]
  simp only [hpix]

theorem erode_congr (m₁ m₂ : List Bool) (w h r : ℕ) (hr : r ≠ 0)
    (hpix : ∀ x y : ℤ, pixAt m₁ w h x y = pixAt m₂ w h x y) :
    erode m₁ w h r = erode m₂ w h r := by
  unfold erode
  rw [if_neg hr, if_neg hr]
  simp only [hpix]

theorem opening_le (m : List Bool) (w h r : ℕ) (hr : r ≠ 0) (x y : ℤ)
    (hx : pixAt (dilate (erode m w h r) w h r) w h x y = true) :
    pixAt m w h x y = true := by
  obtain ⟨hg, u, v, hu1, hu2, hv1, hv2, hpix⟩ := (pixAt_dilate _ w h r hr x y).mp hx
  obtain ⟨hg', hall⟩ := (pixAt_erode m w h r hr (x + u) (y + v)).mp hpix
  have hcx : x + u + -u = x := by ring
  have hcy : y + v + -v = y := by ring
  have h2 := hall (-u) (-v) (by omega) (by omega) (by omega) (by omega)
    (by rw [hcx, hcy]; exact hg)
  rw [hcx, hcy] at h2
  exact h2

theorem le_closing (m : List Bool) (w h r : ℕ) (hr : r ≠ 0) (x y : ℤ)
    (hx : pixAt m w h x y = true) :
    pixAt (erode (dilate m w h r) w h r) w h x y = true := by
  have hg := pixAt_true_grid m w h x y hx
  refine (pixAt_erode _ w h r hr x y).mpr ⟨hg, ?_⟩
  intro u v hu1 hu2 hv1 hv2 hgrid
  refine (pixAt_dilate m w h r hr (x + u) (y + v)).mpr
    ⟨hgrid, -u, -v, by omega, by omega, by omega, by omega, ?_⟩
  have hcx : x + u + -u = x := by ring
  have hcy : y + v + -v = y := by ring
  rw [hcx, hcy]
  exact hx

theorem bool_eq_of_iff {a b : Bool} (h : a = true ↔ b = true) : a = b := by
  cases a <;> cases b <;> simp_all

theorem erode_dilate_erode_pix (m : List Bool) (w h r : ℕ) (hr : r ≠ 0) (x y : ℤ) :
    pixAt (erode (dilate (erode m w h r) w h r) w h r) w h x y =
      pixAt (erode m w h r) w h x y := by
  refine bool_eq_of_iff ?_
  constructor
  · intro hx
    obtain ⟨hg, hall⟩ := (pixAt_erode _ w h r hr x y).mp hx
    refine (pixAt_erode m w h r hr x y).mpr ⟨hg, ?_⟩
    intro u v hu1 hu2 hv1 hv2 hgrid
    exact opening_le m w h r hr (x + u) (y + v)
      (hall u v hu1 hu2 hv1 hv2 hgrid)
  · intro hx
    have hg := pixAt_true_grid _ w h x y hx
    refine (pixAt_erode _ w h r hr x y).mpr ⟨hg, ?_⟩
    intro u v hu1 hu2 hv1 hv2 hgrid
    refine (pixAt_dilate _ w h r hr (x + u) (y + v)).mpr
      ⟨hgrid, -u, -v, by omega, by omega, by omega, by omega, ?_⟩
    have hcx : x + u + -u = x := by ring
    have hcy : y + v + -v = y := by ring
    rw [hcx, hcy]
    exact hx

theorem dilate_erode_dilate_pix (m : List Bool) (w h r : ℕ) (hr : r ≠ 0) (x y : ℤ) :
    pixAt (dilate (erode (dilate m w h r) w h r) w h r) w h x y =
      pixAt (dilate m w h r) w h x y := by
  refine bool_eq_of_iff ?_
  constructor
  · intro hx
    exact opening_le (dilate m w h r) w h r hr x y hx
  · intro hx
    obtain ⟨hg, u, v, hu1, hu2, hv1, hv2, hpix⟩ := (pixAt_dilate m w h r hr x y).mp hx
    refine (pixAt_dilate _ w h r hr x y).mpr ⟨hg, u, v, hu1, hu2, hv1, hv2, ?_⟩
    exact le_closing m w h r hr (x + u) (y + v) hpix

/-- C7: opening (dilate of erode) and closing (erode of dilate) with the same
positive radius are idempotent: applying the operation twice yields the same
mask as applying it once. -/
theorem opening_closing_idempotent (m : List Bool) (w h r : ℕ) (hr : 0 < r) :
    dilate (erode (dilate (erode m w h r) w h r) w h r) w h r =
      dilate (erode m w h r) w h r ∧
    erode (dilate (erode (dilate m w h r) w h r) w h r) w h r =
      erode (dilate m w h r) w h r := by
  have hr' : r ≠ 0 := hr.ne'
  constructor
  · exact dilate_congr _ _ w h r hr' (erode_dilate_erode_pix m w h r hr')
  · exact erode_congr _ _ w h r hr' (dilate_erode_dilate_pix m w h r hr')

theorem opening_closing_idempotent_witness :
    dilate (erode (dilate (erode [true, false, false, false, true, false, false,
      false, true] 3 3 1) 3 3 1) 3 3 1) 3 3 1 =
      dilate (erode [true, false, false, false, true, false, false, false, true]
        3 3 1) 3 3 1 ∧
    erode (dilate (erode (dilate [true, false, false, false, true, false, false,
      false, true] 3 3 1) 3 3 1) 3 3 1) 3 3 1 =
      erode (dilate [true, false, false, false, true, false, false, false, true]
        3 3 1) 3 3 1 :=
  opening_closing_idempotent [true, false, false, false, true, false, false,
    false, true] 3 3 1 (by norm_num)

theorem sum_count_range (values : List ℕ) :
    ∀ k, (∑ j ∈ Finset.range k, values.count j) =
      (values.filter fun v => decide (v < k)).length := by
  induction values with
  | nil => intro k; simp
  | cons v t ih =>
    intro k
    have hcount : ∀ j, (v :: t).count j = t.count j + if v = j then 1 else 0 := by
      intro j
      rw [List.count_cons]
      simp [beq_iff_eq]
    calc (∑ j ∈ Finset.range k, (v :: t).count j)
        = (∑ j ∈ Finset.range k, (t.count j + if v = j then 1 else 0)) := by
          refine Finset.sum_congr rfl ?_
          intro j hj
          exact hcount j
      _ = (∑ j ∈ Finset.range k, t.count j) +
          (∑ j ∈ Finset.range k, if v = j then 1 else 0) := Finset.sum_add_distrib
      _ = (t.filter fun x => decide (x < k)).length + if v < k then 1 else 0 := by
          rw [ih k, Finset.sum_ite_eq (Finset.range k) v (fun j => 1)]
          simp [Finset.mem_range]
      _ = ((v :: t).filter fun x => decide (x < k)).length := by
          rw [List.filter_cons]
          by_cases hv : v < k <;> simp [hv, Nat.add_comm]

theorem histW_cast (values : List ℕ) (k : ℕ) :
    (∑ j ∈ Finset.range k, (histOf values j : ℚ)) =
      (((values.filter fun v => decide (v < k)).length : ℕ) : ℚ) := by
  rw [← sum_count_range values k]
  push_cast [histOf]
  rfl

theorem histW_nonneg (values : List ℕ) (k : ℕ) :
    0 ≤ ∑ j ∈ Finset.range k, (histOf values j : ℚ) :=
  Finset.sum_nonneg fun j _ => by positivity

theorem histW_le_total (values : List ℕ) (k : ℕ) :
    (∑ j ∈ Finset.range k, (histOf values j : ℚ)) ≤ (values.length : ℚ) := by
  rw [histW_cast]
  exact_mod_cast List.length_filter_le _ _

theorem histW_mono (values : List ℕ) {a b : ℕ} (hab : a ≤ b) :
    (∑ j ∈ Finset.range a, (histOf values j : ℚ)) ≤
      ∑ j ∈ Finset.range b, (histOf values j : ℚ) :=
  Finset.sum_le_sum_of_subset_of_nonneg (Finset.range_subset.mpr hab)
    (fun j _ _ => by positivity)

theorem binVariance_nonneg (values : List ℕ) (i : ℕ) :
    0 ≤ binVariance values i := by
  simp only [binVariance]
  split
  · exact le_refl 0
  · rename_i hcond
    rw [not_or] at hcond
    set A := ∑ j ∈ Finset.range (i + 1), (histOf values j : ℚ) with hA
    set S := ∑ j ∈ Finset.range (i + 1), (j : ℚ) * (histOf values j : ℚ) with hS
    set T := (values.length : ℚ) with hT
    set U := ∑ j ∈ Finset.range 256, (j : ℚ) * (histOf values j : ℚ) with hU
    have hwB : 0 < A :=
      lt_of_le_of_ne (by rw [hA]; exact histW_nonneg values (i + 1)) (Ne.symm hcond.1)
    have hle : A ≤ T := by
      rw [hA, hT]
      exact histW_le_total values (i + 1)
    have hwF : 0 < T - A :=
      lt_of_le_of_ne (by linarith) (Ne.symm hcond.2)
    have key : A * (T - A) * (S / A - (U - S) / (T - A)) * (S / A - (U - S) / (T - A)) =
        (A * (T - A)) * ((S / A - (U - S) / (T - A)) * (S / A - (U - S) / (T - A))) := by
      ring
    rw [key]
    exact mul_nonneg (mul_nonneg hwB.le hwF.le) (mul_self_nonneg _)

theorem binVariance_zero_left (values : List ℕ) (i : ℕ)
    (h0 : (∑ j ∈ Finset.range (i + 1), (histOf values j : ℚ)) = 0) :
    binVariance values i = 0 := by
  simp only [binVariance]
  rw [if_pos (Or.inl h0)]

theorem binVariance_zero_right (values : List ℕ) (i k : ℕ) (hik : k ≤ i)
    (htot : (∑ j ∈ Finset.range (k + 1), (histOf values j : ℚ)) =
      (values.length : ℚ)) :
    binVariance values i = 0 := by
  have hge : (values.length : ℚ) ≤ ∑ j ∈ Finset.range (i + 1), (histOf values j : ℚ) := by
    rw [← htot]
    exact histW_mono values (by omega)
  have hle := histW_le_total values (i + 1)
  have heq : (∑ j ∈ Finset.range (i + 1), (histOf values j : ℚ)) = (values.length : ℚ) :=
    le_antisymm hle hge
  simp only [binVariance]
  rw [if_pos (Or.inr (by rw [heq]; ring))]

theorem binVariance_main (values : List ℕ) (k : ℕ)
    (h0 : ¬(∑ j ∈ Finset.range (k + 1), (histOf values j : ℚ)) = 0)
    (h1 : ¬((values.length : ℚ) - ∑ j ∈ Finset.range (k + 1), (histOf values j : ℚ)) = 0) :
    binVariance values k =
      (∑ j ∈ Finset.range (k + 1), (histOf values j : ℚ)) *
        ((values.length : ℚ) - ∑ j ∈ Finset.range (k + 1), (histOf values j : ℚ)) *
        ((∑ j ∈ Finset.range (k + 1), (j : ℚ) * (histOf values j : ℚ)) /
            (∑ j ∈ Finset.range (k + 1), (histOf values j : ℚ)) -
          ((∑ j ∈ Finset.range 256, (j : ℚ) * (histOf values j : ℚ)) -
              ∑ j ∈ Finset.range (k + 1), (j : ℚ) * (histOf values j : ℚ)) /
            ((values.length : ℚ) - ∑ j ∈ Finset.range (k + 1), (histOf values j : ℚ))) *
        ((∑ j ∈ Finset.range (k + 1), (j : ℚ) * (histOf values j : ℚ)) /
            (∑ j ∈ Finset.range (k + 1), (histOf values j : ℚ)) -
          ((∑ j ∈ Finset.range 256, (j : ℚ) * (histOf values j : ℚ)) -
              ∑ j ∈ Finset.range (k + 1), (j : ℚ) * (histOf values j : ℚ)) /
            ((values.length : ℚ) - ∑ j ∈ Finset.range (k + 1), (histOf values j : ℚ))) := by
  simp only [binVariance]
  rw [if_neg (not_or.mpr ⟨h0, h1⟩)]

theorem otsuGo_nil (hist : ℕ → ℚ) (total sum : ℚ) (wB sumB varMax : ℚ) (thr : ℕ) :
    otsuGo hist total sum [] wB sumB varMax thr = thr := rfl

theorem otsuGo_cons (values : List ℕ) (total sum : ℚ) (i : ℕ) (rest : List ℕ)
    (wB sumB varMax : ℚ) (thr : ℕ) :
    otsuGo (fun j => (histOf values j : ℚ)) total sum (i :: rest) wB sumB varMax thr =
      (if wB + (histOf values i : ℚ) = 0 then
        otsuGo (fun j => (histOf values j : ℚ)) total sum rest
          (wB + (histOf values i : ℚ)) sumB varMax thr
      else if total - (wB + (histOf values i : ℚ)) = 0 then thr
      else
        if varMax < (wB + (histOf values i : ℚ)) * (total - (wB + (histOf values i : ℚ))) *
            ((sumB + (i : ℚ) * (histOf values i : ℚ)) / (wB + (histOf values i : ℚ)) -
              (sum - (sumB + (i : ℚ) * (histOf values i : ℚ))) /
                (total - (wB + (histOf values i : ℚ)))) *
            ((sumB + (i : ℚ) * (histOf values i : ℚ)) / (wB + (histOf values i : ℚ)) -
              (sum - (sumB + (i : ℚ) * (histOf values i : ℚ))) /
                (total - (wB + (histOf values i : ℚ)))) then
          otsuGo (fun j => (histOf values j : ℚ)) total sum rest
            (wB + (histOf values i : ℚ)) (sumB + (i : ℚ) * (histOf values i : ℚ))
            ((wB + (histOf values i : ℚ)) * (total - (wB + (histOf values i : ℚ))) *
              ((sumB + (i : ℚ) * (histOf values i : ℚ)) / (wB + (histOf values i : ℚ)) -
                (sum - (sumB + (i : ℚ) * (histOf values i : ℚ))) /
                  (total - (wB + (histOf values i : ℚ)))) *
              ((sumB + (i : ℚ) * (histOf values i : ℚ)) / (wB + (histOf values i : ℚ)) -
                (sum - (sumB + (i : ℚ) * (histOf values i : ℚ))) /
                  (total - (wB + (histOf values i : ℚ))))) i
        else
          otsuGo (fun j => (histOf values j : ℚ)) total sum rest
            (wB + (histOf values i : ℚ)) (sumB + (i : ℚ) * (histOf values i : ℚ))
            varMax thr) := rfl

theorem otsuGo_spec (values : List ℕ) :
    ∀ (n k : ℕ), k + n = 256 →
    ∀ (wB sumB varMax : ℚ) (thr : ℕ),
      wB = (∑ j ∈ Finset.range k, (histOf values j : ℚ)) →
      sumB = (∑ j ∈ Finset.range k, (j : ℚ) * (histOf values j : ℚ)) →
      0 ≤ varMax →
      (∀ j, j < k → binVariance values j ≤ varMax) →
      ((varMax = 0 ∧ thr = 0) ∨
        (thr < k ∧ binVariance values thr = varMax ∧
          ∀ j, j < thr → binVariance values j < varMax)) →
      otsuGo (fun i => (histOf values i : ℚ)) (values.length : ℚ)
          (∑ j ∈ Finset.range 256, (j : ℚ) * (histOf values j : ℚ))
          (List.range' k n) wB sumB varMax thr < 256 ∧
      (∀ j, j < 256 → binVariance values j ≤
        binVariance values (otsuGo (fun i => (histOf values i : ℚ)) (values.length : ℚ)
          (∑ j ∈ Finset.range 256, (j : ℚ) * (histOf values j : ℚ))
          (List.range' k n) wB sumB varMax thr)) ∧
      (∀ j, j < otsuGo (fun i => (histOf values i : ℚ)) (values.length : ℚ)
          (∑ j ∈ Finset.range 256, (j : ℚ) * (histOf values j : ℚ))
          (List.range' k n) wB sumB varMax thr →
        binVariance values j <
        binVariance values (otsuGo (fun i => (histOf values i : ℚ)) (values.length : ℚ)
          (∑ j ∈ Finset.range 256, (j : ℚ) * (histOf values j : ℚ))
          (List.range' k n) wB sumB varMax thr)) := by
  intro n
  induction n with
  | zero =>
    intro k hk wB sumB varMax thr hwB hsB hnn hmax hatt
    have hk' : k = 256 := by omega
    subst hk'
    rw [show List.range' 256 0 = [] from rfl, otsuGo_nil]
    rcases hatt with ⟨hv0, ht0⟩ | ⟨hlt, heq, hstrict⟩
    · subst ht0
      subst hv0
      refine ⟨by omega, ?_, ?_⟩
      · intro j hj
        have h1 := hmax j hj
        have h2 := binVariance_nonneg values 0
        linarith
      · intro j hj
        exact absurd hj (Nat.not_lt_zero j)
    · refine ⟨by omega, ?_, ?_⟩
      · intro j hj
        rw [heq]
        exact hmax j hj
      · intro j hj
        rw [heq]
        exact hstrict j hj
  | succ n ih =>
    intro k hk wB sumB varMax thr hwB hsB hnn hmax hatt
    have hklt : k < 256 := by omega
    rw [List.range'_succ, otsuGo_cons]
    have hW'eq : wB + (histOf values k : ℚ) =
        ∑ j ∈ Finset.range (k + 1), (histOf values j : ℚ) := by
      rw [hwB, Finset.sum_range_succ]
    by_cases h0 : wB + (histOf values k : ℚ) = 0
    · rw [if_pos h0]
      have h1 : 0 ≤ wB := by rw [hwB]; exact histW_nonneg values k
      have h2 : (0 : ℚ) ≤ (histOf values k : ℚ) := by positivity
      have hhk : (histOf values k : ℚ) = 0 := by linarith
      have hsB' : sumB = ∑ j ∈ Finset.range (k + 1), (j : ℚ) * (histOf values j : ℚ) := by
        rw [Finset.sum_range_succ, ← hsB, hhk, mul_zero, add_zero]
      refine ih (k + 1) (by omega) _ sumB varMax thr hW'eq hsB' hnn ?_ ?_
      · intro j hj
        rcases Nat.lt_succ_iff_lt_or_eq.mp hj with hj' | rfl
        · exact hmax j hj'
        · rw [binVariance_zero_left values j (by rw [← hW'eq]; exact h0)]
          exact hnn
      · rcases hatt with hcase | ⟨hlt, heq, hstrict⟩
        · exact Or.inl hcase
        · exact Or.inr ⟨by omega, heq, hstrict⟩
    · rw [if_neg h0]
      by_cases h1 : (values.length : ℚ) - (wB + (histOf values k : ℚ)) = 0
      · rw [if_pos h1]
        have htotk : (∑ j ∈ Finset.range (k + 1), (histOf values j : ℚ)) =
            (values.length : ℚ) := by
          rw [← hW'eq]
          linarith
        have hzero : ∀ j, k ≤ j → binVariance values j = 0 := fun j hj =>
          binVariance_zero_right values j k hj htotk
        rcases hatt with ⟨hv0, ht0⟩ | ⟨hlt, heq, hstrict⟩
        · subst ht0
          subst hv0
          refine ⟨by omega, ?_, ?_⟩
          · intro j hj
            have h2 := binVariance_nonneg values 0
            by_cases hjk : j < k
            · have := hmax j hjk
              linarith
            · rw [hzero j (by omega)]
              exact h2
          · intro j hj
            exact absurd hj (Nat.not_lt_zero j)
        · refine ⟨by omega, ?_, ?_⟩
          · intro j hj
            rw [heq]
            by_cases hjk : j < k
            · exact hmax j hjk
            · rw [hzero j (by omega)]
              exact hnn
          · intro j hj
            rw [heq]
            exact hstrict j hj
      · rw [if_neg h1]
        have hS'eq : sumB + (k : ℚ) * (histOf values k : ℚ) =
            ∑ j ∈ Finset.range (k + 1), (j : ℚ) * (histOf values j : ℚ) := by
          rw [hsB, Finset.sum_range_succ]
        have hveq : (wB + (histOf values k : ℚ)) *
            ((values.length : ℚ) - (wB + (histOf values k : ℚ))) *
            ((sumB + (k : ℚ) * (histOf values k : ℚ)) / (wB + (histOf values k : ℚ)) -
              ((∑ j ∈ Finset.range 256, (j : ℚ) * (histOf values j : ℚ)) -
                  (sumB + (k : ℚ) * (histOf values k : ℚ))) /
                ((values.length : ℚ) - (wB + (histOf values k : ℚ)))) *
            ((sumB + (k : ℚ) * (histOf values k : ℚ)) / (wB + (histOf values k : ℚ)) -
              ((∑ j ∈ Finset.range 256, (j : ℚ) * (histOf values j : ℚ)) -
                  (sumB + (k : ℚ) * (histOf values k : ℚ))) /
                ((values.length : ℚ) - (wB + (histOf values k : ℚ)))) =
            binVariance values k := by
          rw [binVariance_main values k (by rw [← hW'eq]; exact h0)
            (by rw [← hW'eq]; exact h1)]
          rw [hW'eq, hS'eq]
        by_cases h2 : varMax < (wB + (histOf values k : ℚ)) *
            ((values.length : ℚ) - (wB + (histOf values k : ℚ))) *
            ((sumB + (k : ℚ) * (histOf values k : ℚ)) / (wB + (histOf values k : ℚ)) -
              ((∑ j ∈ Finset.range 256, (j : ℚ) * (histOf values j : ℚ)) -
                  (sumB + (k : ℚ) * (histOf values k : ℚ))) /
                ((values.length : ℚ) - (wB + (histOf values k : ℚ)))) *
            ((sumB + (k : ℚ) * (histOf values k : ℚ)) / (wB + (histOf values k : ℚ)) -
              ((∑ j ∈ Finset.range 256, (j : ℚ) * (histOf values j : ℚ)) -
                  (sumB + (k : ℚ) * (histOf values k : ℚ))) /
                ((values.length : ℚ) - (wB + (histOf values k : ℚ))))
        · rw [if_pos h2]
          refine ih (k + 1) (by omega) _ _ _ k hW'eq hS'eq ?_ ?_ ?_
          · linarith
          · intro j hj
            rcases Nat.lt_succ_iff_lt_or_eq.mp hj with hj' | rfl
            · exact le_of_lt (lt_of_le_of_lt (hmax j hj') h2)
            · exact hveq.ge
          · refine Or.inr ⟨by omega, hveq.symm, ?_⟩
            intro j hj
            exact lt_of_le_of_lt (hmax j hj) h2
        · rw [if_neg h2]
          refine ih (k + 1) (by omega) _ _ varMax thr hW'eq hS'eq hnn ?_ ?_
          · intro j hj
            rcases Nat.lt_succ_iff_lt_or_eq.mp hj with hj' | rfl
            · exact hmax j hj'
            · rw [← hveq]
              exact not_lt.mp h2
          · rcases hatt with hcase | ⟨hlt, heq, hstrict⟩
            · exact Or.inl hcase
            · exact Or.inr ⟨by omega, heq, hstrict⟩

/-- C1: for algorithm otsu the mask sets pixel i exactly when the diff value
strictly exceeds the threshold, the threshold being round(manual*255) when the
manual override is supplied and the otsuThreshold output otherwise; and when
no manual threshold is supplied, otsuThreshold is the first of the 256
histogram bins achieving the maximum between-class variance (every bin's
variance is at most the threshold's, and every earlier bin is strictly
below it). -/
theorem computeMask_otsu_spec (diff : List ℕ) (w h : ℕ) (sqrtQ : ℚ → ℚ)
    (options : ChangeDetectionOptions)
    (halg : options.algorithm = Algorithm.otsu)
    (hbytes : ∀ v ∈ diff, v < 256) :
    computeMask diff w h sqrtQ options =
      (diff.map fun (v : ℕ) => decide ((v : ℤ) >
        (match options.otsuManualThreshold with
          | some manual => round (manual * 255)
          | Option.none => (otsuThreshold diff : ℤ)))) ∧
    (options.otsuManualThreshold = Option.none →
      otsuThreshold diff < 256 ∧
      (∀ j, j < 256 → binVariance diff j ≤ binVariance diff (otsuThreshold diff)) ∧
      (∀ j, j < otsuThreshold diff →
        binVariance diff j < binVariance diff (otsuThreshold diff))) := by
  constructor
  · rcases options with ⟨alg, kc, ki, cont, man, sf, ss, pp⟩
    simp only [] at halg
    subst halg
    rfl
  · intro hman
    have h := otsuGo_spec diff 256 0 (by omega) 0 0 0 0 (by simp) (by simp) le_rfl
      (fun j hj => absurd hj (Nat.not_lt_zero j)) (Or.inl ⟨rfl, rfl⟩)
    have hthr : otsuThreshold diff =
        otsuGo (fun i => (histOf diff i : ℚ)) (diff.length : ℚ)
          (∑ j ∈ Finset.range 256, (j : ℚ) * (histOf diff j : ℚ))
          (List.range' 0 256) 0 0 0 0 := by
      unfold otsuThreshold
      rw [List.range_eq_range']
    rw [hthr]
    exact ⟨h.1, h.2.1, h.2.2⟩

theorem computeMask_otsu_spec_witness :
    computeMask [0, 200, 200, 200] 2 2 (fun q => q) tinyOptions =
      ([0, 200, 200, 200].map fun (v : ℕ) => decide ((v : ℤ) >
        (otsuThreshold [0, 200, 200, 200] : ℤ))) :=
  (computeMask_otsu_spec [0, 200, 200, 200] 2 2 (fun q => q) tinyOptions rfl
    (by decide)).1

end NoctisOrbit
